import Mathlib

/-! # ocs_eap_aka.c : the modified SHA-1 NIF `g_nif`

A shallow embedding of `c_src/ocs_eap_aka.c`.  `uint32_t` values are natural
numbers kept below `2^32` by an explicit `% 2^32` wherever the C operation
truncates; `int` values are integers wrapped into the 32-bit signed range;
the automatic arrays `m[16]`, `w[80]` and the freshly allocated output buffer
start with arbitrary contents, exactly as in C.
-/

namespace OcsEapAka

/-! ## Host terms and the build configuration -/

/-- One octet of a binary (`unsigned char`). -/
abbrev Byte := Fin 256

/-- The `ERL_NIF_TERM` values that `g_nif` can be handed or can return. -/
inductive NifTerm where
  /-- a binary with the given octets -/
  | binary (data : List Byte)
  /-- an atom -/
  | atom (name : String)
  /-- any term that is neither of the above (`enif_inspect_binary` rejects it) -/
  | other
  /-- the value of `enif_make_badarg(env)`: a pending `badarg` error -/
  | badarg
  /-- the value of the runtime's `enif_raise_exception(env, reason)` -/
  | raised (reason : NifTerm)
  deriving DecidableEq, Repr

/-- The two version numbers of `erl_nif.h` the file is compiled against. -/
structure Build where
  ERL_NIF_MAJOR_VERSION : Nat
  ERL_NIF_MINOR_VERSION : Nat
  deriving DecidableEq, Repr

/-- The preprocessor condition of lines 25-26: when it holds, the file defines
its own `enif_raise_exception`. -/
def Build.pre_2_8 (bld : Build) : Bool :=
  (bld.ERL_NIF_MAJOR_VERSION == 2 && decide (bld.ERL_NIF_MINOR_VERSION < 8))
    || decide (bld.ERL_NIF_MAJOR_VERSION < 2)

/-- What one call finds outside its own code: whether `enif_alloc_binary`
succeeds, and the indeterminate initial contents of `m`, `w` and of the
allocated buffer. -/
structure Call where
  alloc_ok : Bool
  m0 : Nat → Nat
  w0 : Nat → Nat
  res0 : Nat → Byte

/-- The host function `enif_make_badarg`. -/
def enif_make_badarg : NifTerm := NifTerm.badarg

/-- The function `enif_raise_exception`: lines 27-30 when the build is older than NIF 2.8,
the runtime's function otherwise. -/
def enif_raise_exception (bld : Build) (reason : NifTerm) : NifTerm :=
  if bld.pre_2_8 then enif_make_badarg else NifTerm.raised reason

/-- The host function `enif_inspect_binary`: the octets of a binary term, nothing for other terms. -/
def enif_inspect_binary : NifTerm → Option (List Byte)
  | NifTerm.binary data => some data
  | _ => none

/-! ## C arithmetic -/

/-- Conversion of an integer to `uint32_t`. -/
def toU32 (z : Int) : Nat := (z % 4294967296).toNat

/-- Wrapping of an integer into the range of a 32-bit two's complement `int`. -/
def toInt32 (z : Int) : Int := (z + 2147483648) % 4294967296 - 2147483648

/-- Left shift `x << n` on `uint32_t`. -/
def shl32 (x n : Nat) : Nat := (x <<< n) % 4294967296

/-- Right shift `x >> n` on `uint32_t`. -/
def shr32 (x n : Nat) : Nat := x >>> n

/-- Complement `~x` on `uint32_t`. -/
def not32 (x : Nat) : Nat := 4294967295 - x % 4294967296

/-- Sum `x + y` on `uint32_t`. -/
def add32 (x y : Nat) : Nat := (x + y) % 4294967296

/-- Line 33, `CLS(B, W)`, for an argument `W` that is a single variable:
`((W << B) | (W >> (32 - B)))`. -/
def CLS (B W : Nat) : Nat := (shl32 W B) ||| (shr32 W (32 - B))

/-- Line 34, `F1(B, C, D)`: `((B & C) | ((~B) & D))`. -/
def F1 (B C D : Nat) : Nat := (B &&& C) ||| ((not32 B) &&& D)

/-- Line 35, `F2(B, C, D)`: `(B ^ C ^ D)`. -/
def F2 (B C D : Nat) : Nat := (B ^^^ C) ^^^ D

/-- Line 36, `F3(B, C, D)`: `((B & C) | (B & D) | (C & D))`. -/
def F3 (B C D : Nat) : Nat := ((B &&& C) ||| (B &&& D)) ||| (C &&& D)

/-- Line 63 after macro expansion.  The argument of `CLS` is not parenthesised
in the macro body, so the text is
`((w[i-3] ^ w[i-8] ^ w[i-14] ^ w[i-16] << 1) | (w[i-3] ^ w[i-8] ^ w[i-14] ^ w[i-16] >> (32 - 1)))`
and C binds `<<`, `>>` tighter than `^`, and `^` tighter than `|`. -/
def CLS_1_xor (w3 w8 w14 w16 : Nat) : Nat :=
  (((w3 ^^^ w8) ^^^ w14) ^^^ (shl32 w16 1)) ||| (((w3 ^^^ w8) ^^^ w14) ^^^ (shr32 w16 (32 - 1)))

/-! ## Arrays and loops -/

/-- Assignment `arr[i] = v`. -/
def store {α : Type} (arr : Nat → α) (i : Nat) (v : α) : Nat → α :=
  fun j => if j = i then v else arr j

/-- The loop `for (i = lo; i < hi; i++) body`. -/
def forLoop {σ : Type} (lo hi : Nat) (body : Nat → σ → σ) (s : σ) : σ :=
  (List.range' lo (hi - lo)).foldl (fun s i => body i s) s

/-- The persistent array `static uint32_t h[5]`. -/
structure State where
  h0 : Nat
  h1 : Nat
  h2 : Nat
  h3 : Nat
  h4 : Nat
  deriving DecidableEq, Repr

/-- The initialiser of `h`, lines 44-45. -/
def State.init : State :=
  ⟨0x67452301, 0xefcdab89, 0x98badcfe, 0x10325476, 0xc3d2e1f0⟩

/-- Element access `h[k]`. -/
def State.get (h : State) (k : Nat) : Nat :=
  match k with
  | 0 => h.h0
  | 1 => h.h1
  | 2 => h.h2
  | 3 => h.h3
  | _ => h.h4

/-- The working variables `a, b, c, d, e`. -/
structure Regs where
  a : Nat
  b : Nat
  c : Nat
  d : Nat
  e : Nat
  deriving DecidableEq, Repr

/-! ## The body of `g_nif` -/

/-- Octet `xkey.data[i]`. -/
def byteAt (x : List Byte) (i : Nat) : Int := ((x.getD i 0).val : Int)

/-- Right-hand side of lines 51-52: the octets are promoted to `int`, shifted
and added as `int` (every intermediate value wrapped into the 32-bit two's
complement range, as compilers for 32-bit `int` do), and the sum is converted
to `uint32_t` by the assignment. -/
def decodeWord (x : List Byte) (i : Nat) : Nat :=
  toU32 (toInt32 (toInt32 (toInt32 (toInt32 (byteAt x (i*4) * 16777216)
      + toInt32 (byteAt x (i*4+1) * 65536))
    + toInt32 (byteAt x (i*4+2) * 256))
  + byteAt x (i*4+3)))

/-- Lines 50-58: the message block `m`. -/
def buildM (m0 : Nat → Nat) (x : List Byte) : Nat → Nat :=
  let m := forLoop 0 5 (fun i m => store m i (decodeWord x i)) m0
  let m := store m 5 0x80000000
  let m := forLoop 6 15 (fun i m => store m i 0x00000000) m
  store m 15 0x000000a0

/-- Lines 59-64: the schedule `w`. -/
def buildW (w0 : Nat → Nat) (m : Nat → Nat) : Nat → Nat :=
  let w := forLoop 0 16 (fun i w => store w i (m i)) w0
  forLoop 16 80 (fun i w =>
    store w i (CLS_1_xor (w (i-3)) (w (i-8)) (w (i-14)) (w (i-16)))) w

/-- Lines 71-76, one pass of the first loop.  The literal `0x5aA827999` has
nine hexadecimal digits and so a 64-bit type; the last addition is done in 64
bits and the assignment to `temp` keeps the low 32 bits. -/
def round1 (wi : Nat) (r : Regs) : Regs :=
  let temp := (add32 (add32 (add32 (CLS 5 r.a) (F1 r.a r.b r.c)) r.e) wi + 0x5aA827999)
    % 18446744073709551616 % 4294967296
  let e := r.d
  let d := r.c
  let c := CLS 30 r.b
  let b := r.a
  let a := temp
  ⟨a, b, c, d, e⟩

/-- Lines 79-84, one pass of the second loop. -/
def round2 (wi : Nat) (r : Regs) : Regs :=
  let temp := add32 (add32 (add32 (add32 (CLS 5 r.a) (F2 r.a r.b r.c)) r.e) wi) 0x6ed9eba1
  let e := r.d
  let d := r.c
  let c := CLS 30 r.b
  let b := r.a
  let a := temp
  ⟨a, b, c, d, e⟩

/-- Lines 87-92, one pass of the third loop. -/
def round3 (wi : Nat) (r : Regs) : Regs :=
  let temp := add32 (add32 (add32 (add32 (CLS 5 r.a) (F3 r.a r.b r.c)) r.e) wi) 0x8f1bbcdc
  let e := r.d
  let d := r.c
  let c := CLS 30 r.b
  let b := r.a
  let a := temp
  ⟨a, b, c, d, e⟩

/-- Lines 95-100, one pass of the fourth loop. -/
def round4 (wi : Nat) (r : Regs) : Regs :=
  let temp := add32 (add32 (add32 (add32 (CLS 5 r.a) (F2 r.a r.b r.c)) r.e) wi) 0xca62c1d6
  let e := r.d
  let d := r.c
  let c := CLS 30 r.b
  let b := r.a
  let a := temp
  ⟨a, b, c, d, e⟩

/-- Lines 65-69: the working variables are loaded from `h`. -/
def loadRegs (h : State) : Regs := ⟨h.h0, h.h1, h.h2, h.h3, h.h4⟩

/-- Lines 70-101: the four loops of twenty passes each. -/
def rounds (w : Nat → Nat) (r : Regs) : Regs :=
  let r := forLoop 0 20 (fun i r => round1 (w i) r) r
  let r := forLoop 20 40 (fun i r => round2 (w i) r) r
  let r := forLoop 40 60 (fun i r => round3 (w i) r) r
  forLoop 60 80 (fun i r => round4 (w i) r) r

/-- Lines 102-106: `h[k] = h[k] + {a,b,c,d,e}[k]`. -/
def updateH (h : State) (r : Regs) : State :=
  ⟨add32 h.h0 r.a, add32 h.h1 r.b, add32 h.h2 r.c, add32 h.h3 r.d, add32 h.h4 r.e⟩

/-- Conversion to `unsigned char` on assignment to `res.data[..]`. -/
def toByte (n : Nat) : Byte := ⟨n % 256, Nat.mod_lt n (by decide)⟩

/-- Lines 111-116: the output buffer is filled from `h`. -/
def fillRes (res0 : Nat → Byte) (h : State) : Nat → Byte :=
  forLoop 0 5 (fun i res =>
    let res := store res (i*4) (toByte (shr32 (h.get i) 24))
    let res := store res (i*4+1) (toByte ((shr32 (h.get i) 16) &&& 0xff))
    let res := store res (i*4+2) (toByte ((shr32 (h.get i) 8) &&& 0xff))
    store res (i*4+3) (toByte ((h.get i) &&& 0xff))) res0

/-- The host function `enif_make_binary(env, &res)` for a buffer of `size` octets. -/
def enif_make_binary (size : Nat) (res : Nat → Byte) : NifTerm :=
  NifTerm.binary ((List.range size).map res)

/-- The function `g_nif`, lines 38-118: from the build, the circumstances of
the call, the value of the static array `h` and the argument `argv[0]`, the
returned term and the new value of `h`.  The atom `enomem` is taken to exist
in the runtime, so `enif_make_existing_atom` stores it in `reason`. -/
def g_nif (bld : Build) (env : Call) (h : State) (arg : NifTerm) : NifTerm × State :=
  match enif_inspect_binary arg with
  | none => (enif_make_badarg, h)
  | some xkey =>
    if xkey.length ≠ 20 then (enif_make_badarg, h)
    else
      let m := buildM env.m0 xkey
      let w := buildW env.w0 m
      let r := rounds w (loadRegs h)
      let h := updateH h r
      if !env.alloc_ok then
        let reason := NifTerm.atom "enomem"
        (enif_raise_exception bld reason, h)
      else
        let res := fillRes env.res0 h
        (enif_make_binary 20 res, h)

/-! ## The algorithm as the specification words it (section 4.1) -/

/-- Rotation of a 32-bit word to the left by `n` places. -/
def ref_rotl (n x : Nat) : Nat := (x * 2 ^ n % 4294967296) + x / 2 ^ (32 - n)

/-- Steps 1-2: five big-endian words of the input, the padding word
`0x80000000`, nine zero words, the length word `0x000000a0`. -/
def ref_block (x : List Byte) : List Nat :=
  (List.range 5).map (fun i =>
      (x.getD (4*i) 0).val * 2^24 + (x.getD (4*i+1) 0).val * 2^16
        + (x.getD (4*i+2) 0).val * 2^8 + (x.getD (4*i+3) 0).val)
    ++ [0x80000000] ++ List.replicate 9 0 ++ [0x000000a0]

/-- Step 3, one word of the recurrence:
`w[i] = rotate_left_1(w[i-3] XOR w[i-8] XOR w[i-14] XOR w[i-16])` with `i` the
number of words present. -/
def ref_expand (w : List Nat) : List Nat :=
  let i := w.length
  w ++ [ref_rotl 1 (w.getD (i-3) 0 ^^^ w.getD (i-8) 0 ^^^ w.getD (i-14) 0 ^^^ w.getD (i-16) 0)]

/-- Step 3: the 80-word schedule. -/
def ref_schedule (x : List Byte) : List Nat :=
  (List.range 64).foldl (fun w _ => ref_expand w) (ref_block x)

/-- Step 5: the round function of round `i`, applied to `(b, c, d)`. -/
def ref_F (i b c d : Nat) : Nat :=
  if i < 20 then (b &&& c) ||| ((4294967295 - b) &&& d)
  else if i < 40 then b ^^^ c ^^^ d
  else if i < 60 then (b &&& c) ||| (b &&& d) ||| (c &&& d)
  else b ^^^ c ^^^ d

/-- Step 5: the additive constant of round `i`. -/
def ref_K (i : Nat) : Nat :=
  if i < 20 then 0x5A827999
  else if i < 40 then 0x6ED9EBA1
  else if i < 60 then 0x8F1BBCDC
  else 0xCA62C1D6

/-- Step 5, one round:
`temp = rotate_left_5(a) + F(b,c,d) + e + w[i] + K; e=d; d=c; c=rotate_left_30(b); b=a; a=temp`. -/
def ref_round (w : List Nat) (r : Regs) (i : Nat) : Regs :=
  let temp := (ref_rotl 5 r.a + ref_F i r.b r.c r.d + r.e + w.getD i 0 + ref_K i) % 4294967296
  ⟨temp, r.a, ref_rotl 30 r.b, r.c, r.d⟩

/-- Steps 4-6: the state after one invocation. -/
def ref_state (h : State) (x : List Byte) : State :=
  let w := ref_schedule x
  let r := (List.range 80).foldl (ref_round w) ⟨h.h0, h.h1, h.h2, h.h3, h.h4⟩
  ⟨(h.h0 + r.a) % 4294967296, (h.h1 + r.b) % 4294967296, (h.h2 + r.c) % 4294967296,
    (h.h3 + r.d) % 4294967296, (h.h4 + r.e) % 4294967296⟩

/-- Big-endian encoding of one 32-bit word. -/
def ref_be32 (v : Nat) : List Byte :=
  [toByte (v / 2^24), toByte (v / 2^16), toByte (v / 2^8), toByte v]

/-- Step 7: the digest, the big-endian encoding of the updated state. -/
def ref_digest (h : State) (x : List Byte) : List Byte :=
  let s := ref_state h x
  ref_be32 s.h0 ++ ref_be32 s.h1 ++ ref_be32 s.h2 ++ ref_be32 s.h3 ++ ref_be32 s.h4

/-- The schedule of the code with all indeterminate storage set to zero. -/
def schedule (x : List Byte) : Nat → Nat :=
  buildW (fun _ => 0) (buildM (fun _ => 0) x)

/-! ## 32-bit well-formedness -/

/-- The five working variables hold 32-bit values. -/
def Regs.wf (r : Regs) : Prop :=
  r.a < 4294967296 ∧ r.b < 4294967296 ∧ r.c < 4294967296 ∧ r.d < 4294967296 ∧ r.e < 4294967296

/-- The five words of `h` hold 32-bit values. -/
def State.wf (h : State) : Prop :=
  h.h0 < 4294967296 ∧ h.h1 < 4294967296 ∧ h.h2 < 4294967296 ∧ h.h3 < 4294967296
    ∧ h.h4 < 4294967296

/-! ## The padding of FIPS 180, as the standard words it -/

/-- Big-endian encoding of a number in eight octets. -/
def be64 (n : Nat) : List Byte :=
  [toByte (n / 2^56), toByte (n / 2^48), toByte (n / 2^40), toByte (n / 2^32),
   toByte (n / 2^24), toByte (n / 2^16), toByte (n / 2^8), toByte n]

/-- The padded message of FIPS 180 for a message of whole octets: the message,
the octet `0x80`, the least number of zero octets that brings the length to 56
modulo 64, and the length in bits as a 64-bit big-endian number. -/
def fips_pad (x : List Byte) : List Byte :=
  x ++ [0x80] ++ List.replicate ((119 - x.length % 64) % 64) 0 ++ be64 (8 * x.length)

/-- Big-endian 32-bit word number `i` of a sequence of octets. -/
def be_word (bs : List Byte) (i : Nat) : Nat :=
  (bs.getD (4*i) 0).val * 2^24 + (bs.getD (4*i+1) 0).val * 2^16
    + (bs.getD (4*i+2) 0).val * 2^8 + (bs.getD (4*i+3) 0).val

/-! ## Array accesses, shifts and loop passes of `g_nif` -/

/-- The arrays `g_nif` indexes: `xkey.data`, `m[16]`, `w[80]`, `h[5]` and `res.data`. -/
inductive Arr where
  | xkey
  | m
  | w
  | h
  | res
  deriving DecidableEq, Repr

/-- What a run does that C leaves undefined when out of range: reading or
writing an array element, shifting by an amount; and the start of one pass of
the body of the loop that begins at the given source line. -/
inductive Event where
  | read (a : Arr) (i : Int)
  | write (a : Arr) (i : Int)
  | shift (n : Int)
  | pass (line : Nat)
  deriving DecidableEq, Repr

/-- The loop `for (i = lo; i < hi; i++) body` with at most `fuel` tests of its
condition: nothing when the condition still holds at the last test allowed. -/
def cFor {σ : Type} (fuel : Nat) (i hi : Int) (body : Int → σ → σ) (s : σ) : Option σ :=
  match fuel with
  | 0 => none
  | fuel + 1 => if i < hi then cFor fuel (i + 1) hi body (body i s) else some s

/-- Events of one pass of lines 50-53. -/
def decodeEvents (i : Int) : List Event :=
  [Event.pass 50, Event.read Arr.xkey (i*4), Event.shift 24, Event.read Arr.xkey (i*4+1),
   Event.shift 16, Event.read Arr.xkey (i*4+2), Event.shift 8, Event.read Arr.xkey (i*4+3),
   Event.write Arr.m i]

/-- Events of one pass of lines 62-64, the macro `CLS` expanded. -/
def expandEvents (i : Int) : List Event :=
  [Event.pass 62, Event.read Arr.w (i-3), Event.read Arr.w (i-8), Event.read Arr.w (i-14),
   Event.read Arr.w (i-16), Event.shift 1, Event.read Arr.w (i-3), Event.read Arr.w (i-8),
   Event.read Arr.w (i-14), Event.read Arr.w (i-16), Event.shift (32 - 1), Event.write Arr.w i]

/-- Events of one pass of the round loop that begins at `line` (70, 78, 86
or 94): `CLS(5, a)`, `w[i]` and `CLS(30, b)`. -/
def roundEvents (line : Nat) (i : Int) : List Event :=
  [Event.pass line, Event.shift 5, Event.shift (32 - 5), Event.read Arr.w i,
   Event.shift 30, Event.shift (32 - 30)]

/-- Events of one pass of lines 111-116. -/
def outputEvents (i : Int) : List Event :=
  [Event.pass 111, Event.read Arr.h i, Event.shift 24, Event.write Arr.res (i*4),
   Event.read Arr.h i, Event.shift 16, Event.write Arr.res (i*4+1),
   Event.read Arr.h i, Event.shift 8, Event.write Arr.res (i*4+2),
   Event.read Arr.h i, Event.write Arr.res (i*4+3)]

/-- Events of the loop `for (i = lo; i < hi; i++)` whose pass number `i` has
the events `ev i`: the passes are collected by `cFor`, in order. -/
def loopTrace (fuel : Nat) (lo hi : Int) (ev : Int → List Event) : Option (List Event) :=
  (cFor fuel lo hi (fun i l => l ++ [i]) []).map (fun l => l.flatMap ev)

/-- Events of lines 50-117 in order of execution, for an argument that passed
the test of line 48. -/
def bodyTrace (fuel : Nat) (alloc_ok : Bool) : Option (List Event) := do
  let t50 ← loopTrace fuel 0 5 decodeEvents
  let t54 := [Event.write Arr.m 5]
  let t55 ← loopTrace fuel 6 15 (fun i => [Event.pass 55, Event.write Arr.m i])
  let t58 := [Event.write Arr.m 15]
  let t59 ← loopTrace fuel 0 16 (fun i => [Event.pass 59, Event.read Arr.m i, Event.write Arr.w i])
  let t62 ← loopTrace fuel 16 80 expandEvents
  let t65 := [Event.read Arr.h 0, Event.read Arr.h 1, Event.read Arr.h 2, Event.read Arr.h 3,
    Event.read Arr.h 4]
  let t70 ← loopTrace fuel 0 20 (roundEvents 70)
  let t78 ← loopTrace fuel 20 40 (roundEvents 78)
  let t86 ← loopTrace fuel 40 60 (roundEvents 86)
  let t94 ← loopTrace fuel 60 80 (roundEvents 94)
  let t102 := [Event.read Arr.h 0, Event.write Arr.h 0, Event.read Arr.h 1, Event.write Arr.h 1,
    Event.read Arr.h 2, Event.write Arr.h 2, Event.read Arr.h 3, Event.write Arr.h 3,
    Event.read Arr.h 4, Event.write Arr.h 4]
  let t111 ← if !alloc_ok then some [] else loopTrace fuel 0 5 outputEvents
  some (t50 ++ (t54 ++ (t55 ++ (t58 ++ (t59 ++ (t62 ++ (t65 ++ (t70 ++ (t78 ++ (t86 ++ (t94
    ++ (t102 ++ t111))))))))))))

/-- Events of a call of `g_nif`: none before a return at line 49. -/
def g_nif_trace (fuel : Nat) (alloc_ok : Bool) (arg : NifTerm) : Option (List Event) :=
  match enif_inspect_binary arg with
  | none => some []
  | some xkey => if xkey.length ≠ 20 then some [] else bodyTrace fuel alloc_ok

/-- Number of elements of an array, `xsize` being `xkey.size`. -/
def Arr.size (xsize : Nat) : Arr → Nat
  | Arr.xkey => xsize
  | Arr.m => 16
  | Arr.w => 80
  | Arr.h => 5
  | Arr.res => 20

/-- An access lies inside its array; a shift amount lies in `0..31`. -/
def Event.inBounds (xsize : Nat) : Event → Bool
  | Event.read a i => decide (0 ≤ i) && decide (i < (Arr.size xsize a : Int))
  | Event.write a i => decide (0 ≤ i) && decide (i < (Arr.size xsize a : Int))
  | Event.shift n => decide (0 ≤ n) && decide (n ≤ 31)
  | Event.pass _ => true

/-- Every read of `m` or `w` comes after a write of the same element;
`written` lists the elements written so far. -/
def writtenBeforeRead (written : List (Arr × Int)) : List Event → Bool
  | [] => true
  | Event.read a i :: t =>
    (!(a == Arr.m || a == Arr.w) || written.contains (a, i)) && writtenBeforeRead written t
  | Event.write a i :: t => writtenBeforeRead ((a, i) :: written) t
  | _ :: t => writtenBeforeRead written t

/-! ## Concrete calls used in the examples -/

/-- A build against NIF 2.8 or later (here 2.15). -/
def modernBuild : Build := ⟨2, 15⟩

/-- A build against NIF 2.7, where lines 27-30 are compiled. -/
def oldBuild : Build := ⟨2, 7⟩

/-- A call in which the allocation succeeds and all indeterminate storage is zero. -/
def okCall : Call := ⟨true, fun _ => 0, fun _ => 0, fun _ => 0⟩

/-- A call in which the allocation fails. -/
def failCall : Call := ⟨false, fun _ => 0, fun _ => 0, fun _ => 0⟩

/-- A state that a call with twenty zero octets leaves as it is. -/
def fixedState : State := ⟨0x3f1adb70, 0x332a09d0, 0x77184260, 0x7129f598, 0x6f26cac4⟩

/-- Twenty zero octets. -/
def zeros20 : List Byte := List.replicate 20 0

/-- The octets `00 01 02 ... 13`. -/
def seq20 : List Byte := [0, 1, 2, 3, 4, 5, 6, 7, 8, 9, 10, 11, 12, 13, 14, 15, 16, 17, 18, 19]

end OcsEapAka

namespace OcsEapAka

/-! ## Loops -/

theorem forLoop_succ {σ : Type} (lo hi : Nat) (body : Nat → σ → σ) (s : σ) (hle : lo ≤ hi) :
    forLoop lo (hi + 1) body s = body hi (forLoop lo hi body s) := by
  unfold forLoop
  have e : hi + 1 - lo = (hi - lo) + 1 := by omega
  rw [e, List.range'_concat, List.foldl_append]
  have e2 : lo + (hi - lo) = hi := by omega
  simp [e2]

theorem forLoop_self {σ : Type} (lo : Nat) (body : Nat → σ → σ) (s : σ) :
    forLoop lo lo body s = s := by
  simp [forLoop]

/-- Two loops over the same range keep a relation between their states. -/
theorem forLoop_rel {σ τ : Type} (R : Nat → σ → τ → Prop) (lo hi : Nat)
    (f : Nat → σ → σ) (g : Nat → τ → τ) (s : σ) (t : τ) (hle : lo ≤ hi) (h0 : R lo s t)
    (hstep : ∀ i a b, lo ≤ i → i < hi → R i a b → R (i + 1) (f i a) (g i b)) :
    R hi (forLoop lo hi f s) (forLoop lo hi g t) := by
  have key : ∀ n, lo ≤ n → n ≤ hi → R n (forLoop lo n f s) (forLoop lo n g t) := by
    intro n hn
    induction n, hn using Nat.le_induction with
    | base => intro _; simpa [forLoop_self] using h0
    | succ n hn ih =>
      intro hn1
      rw [forLoop_succ lo n f s hn, forLoop_succ lo n g t hn]
      exact hstep n _ _ hn (by omega) (ih (by omega))
  exact key hi hle (Nat.le_refl hi)

/-- A property indexed by the loop counter is carried through a loop. -/
theorem forLoop_inv {σ : Type} (P : Nat → σ → Prop) (lo hi : Nat) (f : Nat → σ → σ) (s : σ)
    (hle : lo ≤ hi) (h0 : P lo s)
    (hstep : ∀ i a, lo ≤ i → i < hi → P i a → P (i + 1) (f i a)) :
    P hi (forLoop lo hi f s) :=
  forLoop_rel (fun n a (_ : Unit) => P n a) lo hi f (fun _ u => u) s () hle h0
    (fun i a _ h1 h2 h3 => hstep i a h1 h2 h3)

/-! ## The arrays do not depend on their indeterminate initial contents -/

theorem store_same {α : Type} (arr : Nat → α) (i : Nat) (v : α) : store arr i v i = v := by
  simp [store]

theorem store_other {α : Type} (arr : Nat → α) (i j : Nat) (v : α) (h : j ≠ i) :
    store arr i v j = arr j := by
  simp [store, h]

/-- Lines 50-53 leave `m[0..4]` decoded from the input. -/
theorem decodeLoop_spec (m0 : Nat → Nat) (x : List Byte) (i : Nat) (hi : i < 5) :
    forLoop 0 5 (fun i m => store m i (decodeWord x i)) m0 i = decodeWord x i := by
  have key := forLoop_inv (fun n (m : Nat → Nat) => ∀ j, j < n → m j = decodeWord x j) 0 5
    (fun i m => store m i (decodeWord x i)) m0 (by decide) (by intro j hj; omega)
    (by
      intro k a _ _ hP j hj
      beta_reduce
      by_cases hjk : j = k
      · subst hjk; exact store_same _ _ _
      · rw [store_other _ _ _ _ hjk]; exact hP j (by omega))
  exact key i hi

/-- Lines 55-57 set `m[6..14]` to zero and leave the other words alone. -/
theorem zeroLoop_spec (m : Nat → Nat) (j : Nat) :
    forLoop 6 15 (fun i m => store m i 0x00000000) m j = if 6 ≤ j ∧ j < 15 then 0 else m j := by
  have key := forLoop_inv
    (fun n (a : Nat → Nat) => ∀ j, a j = if 6 ≤ j ∧ j < n then 0 else m j) 6 15
    (fun i m => store m i 0x00000000) m (by decide)
    (by intro j; rw [if_neg (by omega)])
    (by
      intro k a _ _ hP j
      beta_reduce
      by_cases hjk : j = k
      · subst hjk; rw [store_same, if_pos (by omega)]
      · rw [store_other _ _ _ _ hjk, hP j]
        by_cases hc : 6 ≤ j ∧ j < k
        · rw [if_pos hc, if_pos (by omega)]
        · rw [if_neg hc, if_neg (by omega)])
  exact key j

/-- The contents of the block `m` after lines 50-58. -/
theorem buildM_spec (m0 : Nat → Nat) (x : List Byte) (i : Nat) (hi : i < 16) :
    buildM m0 x i =
      if i < 5 then decodeWord x i else if i = 5 then 0x80000000
      else if i < 15 then 0 else 0x000000a0 := by
  unfold buildM
  by_cases h15 : i = 15
  · subst h15; rw [store_same]; rfl
  · rw [store_other _ _ _ _ h15, zeroLoop_spec]
    by_cases h6 : 6 ≤ i ∧ i < 15
    · rw [if_pos h6, if_neg (by omega), if_neg (by omega), if_pos (by omega)]
    · rw [if_neg h6]
      by_cases h5 : i = 5
      · subst h5; rw [store_same]; rfl
      · rw [store_other _ _ _ _ h5, decodeLoop_spec m0 x i (by omega), if_pos (by omega)]

theorem buildM_junk (m0 m1 : Nat → Nat) (x : List Byte) (i : Nat) (hi : i < 16) :
    buildM m0 x i = buildM m1 x i := by
  rw [buildM_spec m0 x i hi, buildM_spec m1 x i hi]

/-- Lines 59-61 copy `m[0..15]` to `w[0..15]`. -/
theorem copyLoop_spec (w0 m : Nat → Nat) (j : Nat) (hj : j < 16) :
    forLoop 0 16 (fun i w => store w i (m i)) w0 j = m j := by
  have key := forLoop_inv (fun n (w : Nat → Nat) => ∀ j, j < n → w j = m j) 0 16
    (fun i w => store w i (m i)) w0 (by decide) (by intro j hj; omega)
    (by
      intro k a _ _ hP j hj
      beta_reduce
      by_cases hjk : j = k
      · subst hjk; exact store_same _ _ _
      · rw [store_other _ _ _ _ hjk]; exact hP j (by omega))
  exact key j hj

/-- Lines 62-64 do not touch `w[0..15]`. -/
theorem buildW_low (w0 m : Nat → Nat) (j : Nat) (hj : j < 16) : buildW w0 m j = m j := by
  unfold buildW
  have key := forLoop_inv (fun _ (w : Nat → Nat) => ∀ j, j < 16 → w j = m j) 16 80
    (fun i w => store w i (CLS_1_xor (w (i-3)) (w (i-8)) (w (i-14)) (w (i-16))))
    (forLoop 0 16 (fun i w => store w i (m i)) w0) (by decide)
    (fun j hj => copyLoop_spec w0 m j hj)
    (by
      intro k a hk _ hP j hj
      beta_reduce
      rw [store_other _ _ _ _ (by omega)]
      exact hP j hj)
  exact key j hj

theorem buildW_junk (w0 w1 m m1 : Nat → Nat) (hm : ∀ i, i < 16 → m i = m1 i)
    (j : Nat) (hj : j < 80) : buildW w0 m j = buildW w1 m1 j := by
  have h16 : ∀ j, j < 16 →
      forLoop 0 16 (fun i w => store w i (m i)) w0 j
        = forLoop 0 16 (fun i w => store w i (m1 i)) w1 j := by
    intro j hj
    rw [copyLoop_spec w0 m j hj, copyLoop_spec w1 m1 j hj, hm j hj]
  have key := forLoop_rel (fun n (w w' : Nat → Nat) => ∀ j, j < n → w j = w' j) 16 80
    (fun i w => store w i (CLS_1_xor (w (i-3)) (w (i-8)) (w (i-14)) (w (i-16))))
    (fun i w => store w i (CLS_1_xor (w (i-3)) (w (i-8)) (w (i-14)) (w (i-16))))
    _ _ (by decide) h16
    (by
      intro i a b hlo _ hR j hj
      beta_reduce
      by_cases hji : j = i
      · subst hji
        rw [store_same, store_same, hR (j-3) (by omega), hR (j-8) (by omega),
          hR (j-14) (by omega), hR (j-16) (by omega)]
      · rw [store_other _ _ _ _ hji, store_other _ _ _ _ hji]
        exact hR j (by omega))
  exact key j hj

theorem rounds_congr (w w' : Nat → Nat) (r0 : Regs) (hw : ∀ i, i < 80 → w i = w' i) :
    rounds w r0 = rounds w' r0 := by
  unfold rounds
  have e1 := forLoop_rel (fun _ (r r' : Regs) => r = r') 0 20
    (fun i r => round1 (w i) r) (fun i r => round1 (w' i) r) r0 r0 (by decide) rfl
    (by intro i a b _ hi hab; simp only [hab, hw i (by omega)])
  have e2 := forLoop_rel (fun _ (r r' : Regs) => r = r') 20 40
    (fun i r => round2 (w i) r) (fun i r => round2 (w' i) r) _ _ (by decide) e1
    (by intro i a b _ hi hab; simp only [hab, hw i (by omega)])
  have e3 := forLoop_rel (fun _ (r r' : Regs) => r = r') 40 60
    (fun i r => round3 (w i) r) (fun i r => round3 (w' i) r) _ _ (by decide) e2
    (by intro i a b _ hi hab; simp only [hab, hw i (by omega)])
  exact forLoop_rel (fun _ (r r' : Regs) => r = r') 60 80
    (fun i r => round4 (w i) r) (fun i r => round4 (w' i) r) _ _ (by decide) e3
    (by intro i a b _ hi hab; simp only [hab, hw i (by omega)])

/-- Lines 111-116 leave the four octets of every `h[k]` in the buffer. -/
theorem fillRes_spec (r0 : Nat → Byte) (h : State) (k : Nat) (hk : k < 5) :
    fillRes r0 h (k*4) = toByte (shr32 (h.get k) 24)
    ∧ fillRes r0 h (k*4+1) = toByte ((shr32 (h.get k) 16) &&& 0xff)
    ∧ fillRes r0 h (k*4+2) = toByte ((shr32 (h.get k) 8) &&& 0xff)
    ∧ fillRes r0 h (k*4+3) = toByte ((h.get k) &&& 0xff) := by
  have key := forLoop_inv
    (fun n (res : Nat → Byte) => ∀ k, k < n →
      res (k*4) = toByte (shr32 (h.get k) 24)
      ∧ res (k*4+1) = toByte ((shr32 (h.get k) 16) &&& 0xff)
      ∧ res (k*4+2) = toByte ((shr32 (h.get k) 8) &&& 0xff)
      ∧ res (k*4+3) = toByte ((h.get k) &&& 0xff)) 0 5
    (fun i res =>
      let res := store res (i*4) (toByte (shr32 (h.get i) 24))
      let res := store res (i*4+1) (toByte ((shr32 (h.get i) 16) &&& 0xff))
      let res := store res (i*4+2) (toByte ((shr32 (h.get i) 8) &&& 0xff))
      store res (i*4+3) (toByte ((h.get i) &&& 0xff))) r0 (by decide)
    (by intro k hk; omega)
    (by
      intro i a _ _ hP k hk
      beta_reduce
      by_cases hki : k = i
      · subst hki
        refine ⟨?_, ?_, ?_, ?_⟩
        · rw [store_other _ _ _ _ (by omega), store_other _ _ _ _ (by omega),
            store_other _ _ _ _ (by omega), store_same]
        · rw [store_other _ _ _ _ (by omega), store_other _ _ _ _ (by omega), store_same]
        · rw [store_other _ _ _ _ (by omega), store_same]
        · rw [store_same]
      · have hlt : k < i := by omega
        obtain ⟨p0, p1, p2, p3⟩ := hP k hlt
        refine ⟨?_, ?_, ?_, ?_⟩
        · rw [store_other _ _ _ _ (by omega), store_other _ _ _ _ (by omega),
            store_other _ _ _ _ (by omega), store_other _ _ _ _ (by omega)]; exact p0
        · rw [store_other _ _ _ _ (by omega), store_other _ _ _ _ (by omega),
            store_other _ _ _ _ (by omega), store_other _ _ _ _ (by omega)]; exact p1
        · rw [store_other _ _ _ _ (by omega), store_other _ _ _ _ (by omega),
            store_other _ _ _ _ (by omega), store_other _ _ _ _ (by omega)]; exact p2
        · rw [store_other _ _ _ _ (by omega), store_other _ _ _ _ (by omega),
            store_other _ _ _ _ (by omega), store_other _ _ _ _ (by omega)]; exact p3)
  exact key k hk

theorem fillRes_junk (r0 r1 : Nat → Byte) (h : State) (j : Nat) (hj : j < 20) :
    fillRes r0 h j = fillRes r1 h j := by
  have hk : j / 4 < 5 := by omega
  obtain ⟨a0, a1, a2, a3⟩ := fillRes_spec r0 h (j / 4) hk
  obtain ⟨b0, b1, b2, b3⟩ := fillRes_spec r1 h (j / 4) hk
  have hc : j = j / 4 * 4 ∨ j = j / 4 * 4 + 1 ∨ j = j / 4 * 4 + 2 ∨ j = j / 4 * 4 + 3 := by omega
  rcases hc with e | e | e | e
  · rw [e, a0, b0]
  · rw [e, a1, b1]
  · rw [e, a2, b2]
  · rw [e, a3, b3]

theorem enif_make_binary_junk (r0 r1 : Nat → Byte) (h : State) :
    enif_make_binary 20 (fillRes r0 h) = enif_make_binary 20 (fillRes r1 h) := by
  have e : (List.range 20).map (fillRes r0 h) = (List.range 20).map (fillRes r1 h) :=
    List.map_congr_left (fun j hj => fillRes_junk r0 r1 h j (List.mem_range.mp hj))
  unfold enif_make_binary
  rw [e]

/-- A call with a 20-octet binary, freed of the indeterminate storage. -/
theorem g_nif_binary_20 (bld : Build) (env : Call) (h : State) (x : List Byte)
    (hx : x.length = 20) :
    g_nif bld env h (NifTerm.binary x) =
      (if env.alloc_ok = true
        then enif_make_binary 20 (fillRes (fun _ => 0) (updateH h (rounds (schedule x) (loadRegs h))))
        else enif_raise_exception bld (NifTerm.atom "enomem"),
       updateH h (rounds (schedule x) (loadRegs h))) := by
  have hr : rounds (buildW env.w0 (buildM env.m0 x)) (loadRegs h) = rounds (schedule x) (loadRegs h) :=
    rounds_congr _ _ _ (fun i hi => buildW_junk _ _ _ _ (fun k hk => buildM_junk _ _ x k hk) i hi)
  have hlen : ¬ (x.length ≠ 20) := fun hne => hne hx
  unfold g_nif
  simp only [enif_inspect_binary]
  rw [if_neg hlen]
  simp only [hr]
  cases hal : env.alloc_ok
  · simp
  · simp [enif_make_binary_junk env.res0 (fun _ => 0)]

theorem g_nif_wrong_size (bld : Build) (env : Call) (h : State) (x : List Byte)
    (hx : x.length ≠ 20) :
    g_nif bld env h (NifTerm.binary x) = (NifTerm.badarg, h) := by
  simp [g_nif, enif_inspect_binary, hx, enif_make_badarg]

theorem g_nif_not_binary (bld : Build) (env : Call) (h : State) (arg : NifTerm)
    (ha : enif_inspect_binary arg = none) :
    g_nif bld env h arg = (NifTerm.badarg, h) := by
  simp [g_nif, ha, enif_make_badarg]

/-! ## The claims -/

set_option maxRecDepth 100000 in
/-- C1: on the standard initial state, with the allocation succeeding, `g_nif`
does not return the digest of the reference algorithm of section 4.1: for
twenty zero octets and for the octets `00 01 .. 13` the returned binary and
the reference digest are the two different values shown. -/
theorem g_nif_digest_is_not_reference :
    (g_nif modernBuild okCall State.init (NifTerm.binary zeros20)).1
      = NifTerm.binary [29, 7, 30, 183, 58, 200, 153, 59, 111, 89, 118, 226, 61, 81, 166, 230,
          1, 73, 230, 17]
    ∧ ref_digest State.init zeros20
      = [103, 104, 3, 62, 33, 100, 104, 36, 123, 208, 49, 160, 162, 217, 135, 109,
          121, 129, 143, 143]
    ∧ (g_nif modernBuild okCall State.init (NifTerm.binary zeros20)).1
      ≠ NifTerm.binary (ref_digest State.init zeros20)
    ∧ (g_nif modernBuild okCall State.init (NifTerm.binary seq20)).1
      = NifTerm.binary [41, 211, 167, 141, 211, 154, 239, 180, 114, 24, 136, 86, 120, 60, 234, 43,
          85, 193, 123, 136]
    ∧ ref_digest State.init seq20
      = [96, 44, 99, 210, 243, 209, 60, 163, 32, 108, 223, 32, 76, 222, 36, 231,
          216, 244, 38, 108]
    ∧ (g_nif modernBuild okCall State.init (NifTerm.binary seq20)).1
      ≠ NifTerm.binary (ref_digest State.init seq20) := by
  refine ⟨?_, ?_, ?_, ?_, ?_, ?_⟩ <;> decide

/-- C2: a binary whose length is not 20 gets the `badarg` result and no
binary, whatever the state, the build and the outcome of the allocation. -/
theorem g_nif_rejects_wrong_length (bld : Build) (env : Call) (h : State) (x : List Byte)
    (hx : x.length ≠ 20) :
    (g_nif bld env h (NifTerm.binary x)).1 = enif_make_badarg
    ∧ ∀ out, (g_nif bld env h (NifTerm.binary x)).1 ≠ NifTerm.binary out := by
  rw [g_nif_wrong_size bld env h x hx]
  exact ⟨rfl, fun out hout => NifTerm.noConfusion hout⟩

/-- Witness of C2 at the lengths 0, 19, 21 and 1024, in calls whose allocation would fail. -/
theorem g_nif_rejects_wrong_length_witness :
    (([] : List Byte).length ≠ 20
      ∧ (g_nif oldBuild failCall State.init (NifTerm.binary [])).1 = enif_make_badarg)
    ∧ ((seq20.take 19).length ≠ 20
      ∧ (g_nif modernBuild failCall State.init (NifTerm.binary (seq20.take 19))).1
          = enif_make_badarg)
    ∧ ((seq20 ++ [20]).length ≠ 20
      ∧ (g_nif modernBuild failCall State.init (NifTerm.binary (seq20 ++ [20]))).1
          = enif_make_badarg)
    ∧ ((List.replicate 1024 (0 : Byte)).length ≠ 20
      ∧ (g_nif modernBuild failCall State.init (NifTerm.binary (List.replicate 1024 0))).1
          = enif_make_badarg) :=
  ⟨⟨by decide, (g_nif_rejects_wrong_length oldBuild failCall State.init [] (by decide)).1⟩,
   ⟨by decide,
    (g_nif_rejects_wrong_length modernBuild failCall State.init (seq20.take 19) (by decide)).1⟩,
   ⟨by decide,
    (g_nif_rejects_wrong_length modernBuild failCall State.init (seq20 ++ [20]) (by decide)).1⟩,
   ⟨by rw [List.length_replicate]; decide,
    (g_nif_rejects_wrong_length modernBuild failCall State.init (List.replicate 1024 0)
      (by rw [List.length_replicate]; decide)).1⟩⟩

/-- C3, as stated, fails: built against NIF 2.7, a call with twenty octets
whose allocation fails returns the `badarg` result, the result of a wrong
length, although the length is 20. -/
theorem badarg_with_length_20_on_old_build :
    zeros20.length = 20
    ∧ (g_nif oldBuild failCall State.init (NifTerm.binary zeros20)).1 = enif_make_badarg
    ∧ ¬ ((g_nif oldBuild failCall State.init (NifTerm.binary zeros20)).1 = enif_make_badarg
          ↔ zeros20.length ≠ 20) := by
  decide

/-- C3, amended: a call with twenty octets whose buffer is obtained returns a
binary of exactly 20 octets, and a binary is returned only then.  Built against
NIF 2.8 or later, the result is `badarg` exactly for a length other than 20 and
the raised `enomem` exactly for length 20 with a failed allocation; built
against an older NIF, every call that returns no binary returns `badarg`. -/
theorem g_nif_outcomes (bld : Build) (env : Call) (h : State) (x : List Byte) :
    (x.length = 20 → env.alloc_ok = true →
      ∃ out, (g_nif bld env h (NifTerm.binary x)).1 = NifTerm.binary out ∧ out.length = 20)
    ∧ ((∃ out, (g_nif bld env h (NifTerm.binary x)).1 = NifTerm.binary out)
        ↔ (x.length = 20 ∧ env.alloc_ok = true))
    ∧ (bld.pre_2_8 = false →
        ((g_nif bld env h (NifTerm.binary x)).1 = enif_make_badarg ↔ x.length ≠ 20)
        ∧ ((g_nif bld env h (NifTerm.binary x)).1 = NifTerm.raised (NifTerm.atom "enomem")
            ↔ (x.length = 20 ∧ env.alloc_ok = false)))
    ∧ (bld.pre_2_8 = true →
        ((g_nif bld env h (NifTerm.binary x)).1 = enif_make_badarg
          ↔ (x.length ≠ 20 ∨ env.alloc_ok = false))) := by
  by_cases hx : x.length = 20
  · rw [g_nif_binary_20 bld env h x hx]
    cases hal : env.alloc_ok <;> cases hb : bld.pre_2_8 <;>
      simp [hx, enif_make_binary, enif_raise_exception, enif_make_badarg, hb]
  · rw [g_nif_wrong_size bld env h x hx]
    simp [hx, enif_make_badarg]

/-- Witness of C3 (amended): the three outcomes on a build against NIF 2.15. -/
theorem g_nif_outcomes_witness :
    seq20.length = 20 ∧ okCall.alloc_ok = true ∧ modernBuild.pre_2_8 = false
    ∧ (∃ out, (g_nif modernBuild okCall State.init (NifTerm.binary seq20)).1
          = NifTerm.binary out ∧ out.length = 20)
    ∧ ((g_nif modernBuild okCall State.init (NifTerm.binary seq20)).1 = enif_make_badarg
        ↔ seq20.length ≠ 20)
    ∧ ((g_nif modernBuild okCall State.init (NifTerm.binary seq20)).1
          = NifTerm.raised (NifTerm.atom "enomem")
        ↔ (seq20.length = 20 ∧ okCall.alloc_ok = false)) :=
  ⟨by decide, rfl, by decide,
   (g_nif_outcomes modernBuild okCall State.init seq20).1 (by decide) rfl,
   ((g_nif_outcomes modernBuild okCall State.init seq20).2.2.1 (by decide)).1,
   ((g_nif_outcomes modernBuild okCall State.init seq20).2.2.1 (by decide)).2⟩

/-- C4, as stated, fails: built against NIF 2.7, the result of a call with
twenty octets whose allocation fails is the very result of a call with a
binary of the wrong length, and it carries no `enomem`. -/
theorem alloc_failure_not_distinct_on_old_build :
    (g_nif oldBuild failCall State.init (NifTerm.binary seq20)).1
      = (g_nif oldBuild okCall State.init (NifTerm.binary [])).1
    ∧ (g_nif oldBuild failCall State.init (NifTerm.binary seq20)).1
      ≠ NifTerm.raised (NifTerm.atom "enomem") := by
  decide

/-- C4, amended: for twenty octets and a failed allocation, a build against
NIF 2.8 or later returns the raised exception carrying `enomem`, which differs
from the result of every call with a wrong length; a build against an older
NIF returns the `badarg` result. -/
theorem g_nif_alloc_failure (bld : Build) (env : Call) (h : State) (x : List Byte)
    (hx : x.length = 20) (hal : env.alloc_ok = false) :
    (bld.pre_2_8 = false →
      (g_nif bld env h (NifTerm.binary x)).1 = NifTerm.raised (NifTerm.atom "enomem")
      ∧ ∀ (env' : Call) (h' : State) (y : List Byte), y.length ≠ 20 →
          (g_nif bld env h (NifTerm.binary x)).1 ≠ (g_nif bld env' h' (NifTerm.binary y)).1)
    ∧ (bld.pre_2_8 = true → (g_nif bld env h (NifTerm.binary x)).1 = enif_make_badarg) := by
  rw [g_nif_binary_20 bld env h x hx]
  constructor
  · intro hb
    refine ⟨by simp [hal, enif_raise_exception, hb], ?_⟩
    intro env' h' y hy
    rw [g_nif_wrong_size bld env' h' y hy]
    simp [hal, enif_raise_exception, hb]
  · intro hb
    simp [hal, enif_raise_exception, hb]

/-- Witness of C4 (amended) on a build against NIF 2.15. -/
theorem g_nif_alloc_failure_witness :
    seq20.length = 20 ∧ failCall.alloc_ok = false ∧ modernBuild.pre_2_8 = false
    ∧ (g_nif modernBuild failCall State.init (NifTerm.binary seq20)).1
        = NifTerm.raised (NifTerm.atom "enomem")
    ∧ (g_nif modernBuild failCall State.init (NifTerm.binary seq20)).1
        ≠ (g_nif modernBuild okCall State.init (NifTerm.binary [])).1 :=
  ⟨by decide, rfl, by decide,
   ((g_nif_alloc_failure modernBuild failCall State.init seq20 (by decide) rfl).1
      (by decide)).1,
   ((g_nif_alloc_failure modernBuild failCall State.init seq20 (by decide) rfl).1
      (by decide)).2 okCall State.init [] (by decide)⟩

theorem toInt32_of_range (z : Int) (hlo : -2147483648 ≤ z) (hhi : z < 2147483648) :
    toInt32 z = z := by
  unfold toInt32
  omega

theorem toInt32_shl24 (b : Int) (h0 : 0 ≤ b) (h1 : b < 256) :
    toInt32 (b * 16777216) = if b < 128 then b * 16777216 else b * 16777216 - 4294967296 := by
  unfold toInt32
  split <;> omega

theorem toU32_of_neg (z : Int) (hlo : -4294967296 ≤ z) (hhi : z < 0) :
    toU32 z = (z + 4294967296).toNat := by
  unfold toU32
  congr 1
  omega

theorem toU32_of_nonneg (z : Int) (hlo : 0 ≤ z) (hhi : z < 4294967296) :
    toU32 z = z.toNat := by
  unfold toU32
  congr 1
  omega

/-- The `int` arithmetic of lines 51-52 never wraps for the unsigned result:
the word is the big-endian value of its four octets. -/
theorem decodeWord_eq (x : List Byte) (i : Nat) :
    decodeWord x i = (x.getD (i*4) 0).val * 16777216 + (x.getD (i*4+1) 0).val * 65536
      + (x.getD (i*4+2) 0).val * 256 + (x.getD (i*4+3) 0).val := by
  have h0 := (x.getD (i*4) 0).isLt
  have h1 := (x.getD (i*4+1) 0).isLt
  have h2 := (x.getD (i*4+2) 0).isLt
  have h3 := (x.getD (i*4+3) 0).isLt
  unfold decodeWord byteAt
  generalize (x.getD (i*4) 0).val = b0 at *
  generalize (x.getD (i*4+1) 0).val = b1 at *
  generalize (x.getD (i*4+2) 0).val = b2 at *
  generalize (x.getD (i*4+3) 0).val = b3 at *
  rw [toInt32_shl24 (b0 : Int) (by omega) (by omega),
    toInt32_of_range ((b1 : Int) * 65536) (by omega) (by omega),
    toInt32_of_range ((b2 : Int) * 256) (by omega) (by omega)]
  by_cases hb : (b0 : Int) < 128
  · rw [if_pos hb,
      toInt32_of_range ((b0 : Int) * 16777216 + (b1 : Int) * 65536) (by omega) (by omega),
      toInt32_of_range ((b0 : Int) * 16777216 + (b1 : Int) * 65536 + (b2 : Int) * 256)
        (by omega) (by omega),
      toInt32_of_range ((b0 : Int) * 16777216 + (b1 : Int) * 65536 + (b2 : Int) * 256 + (b3 : Int))
        (by omega) (by omega),
      toU32_of_nonneg _ (by omega) (by omega)]
    omega
  · rw [if_neg hb,
      toInt32_of_range ((b0 : Int) * 16777216 - 4294967296 + (b1 : Int) * 65536)
        (by omega) (by omega),
      toInt32_of_range ((b0 : Int) * 16777216 - 4294967296 + (b1 : Int) * 65536
        + (b2 : Int) * 256) (by omega) (by omega),
      toInt32_of_range ((b0 : Int) * 16777216 - 4294967296 + (b1 : Int) * 65536
        + (b2 : Int) * 256 + (b3 : Int)) (by omega) (by omega),
      toU32_of_neg _ (by omega) (by omega)]
    omega

theorem getD_map_range {α : Type} (f : Nat → α) (n j : Nat) (d : α) (hj : j < n) :
    ((List.range n).map f).getD j d = f j := by
  simp [List.getD_eq_getElem?_getD, List.getElem?_map, List.getElem?_range hj]

theorem toByte_val (n : Nat) : (toByte n).val = n % 256 := rfl

theorem and_0xff (n : Nat) : n &&& 0xff = n % 256 :=
  Nat.and_pow_two_sub_one_eq_mod n 8

theorem updateH_get_lt (h : State) (r : Regs) (k : Nat) : (updateH h r).get k < 4294967296 := by
  unfold updateH State.get add32
  split <;> exact Nat.mod_lt _ (by decide)

/-- C5: after a call with twenty octets the persistent state is, word by word,
the prior state plus the working registers left by the 80 rounds started from
the prior state, modulo `2^32`, whether or not the allocation succeeds; and the
next call starts its working registers from that state. -/
theorem g_nif_state_update (bld : Build) (env : Call) (h : State) (x : List Byte)
    (hx : x.length = 20) :
    (g_nif bld env h (NifTerm.binary x)).2.h0
        = (h.h0 + (rounds (schedule x) (loadRegs h)).a) % 4294967296
    ∧ (g_nif bld env h (NifTerm.binary x)).2.h1
        = (h.h1 + (rounds (schedule x) (loadRegs h)).b) % 4294967296
    ∧ (g_nif bld env h (NifTerm.binary x)).2.h2
        = (h.h2 + (rounds (schedule x) (loadRegs h)).c) % 4294967296
    ∧ (g_nif bld env h (NifTerm.binary x)).2.h3
        = (h.h3 + (rounds (schedule x) (loadRegs h)).d) % 4294967296
    ∧ (g_nif bld env h (NifTerm.binary x)).2.h4
        = (h.h4 + (rounds (schedule x) (loadRegs h)).e) % 4294967296
    ∧ loadRegs h = ⟨h.h0, h.h1, h.h2, h.h3, h.h4⟩
    ∧ ∀ (env2 : Call) (y : List Byte), y.length = 20 →
        (g_nif bld env2 (g_nif bld env h (NifTerm.binary x)).2 (NifTerm.binary y)).2
          = updateH (g_nif bld env h (NifTerm.binary x)).2
              (rounds (schedule y) (loadRegs (g_nif bld env h (NifTerm.binary x)).2)) := by
  refine ⟨?_, ?_, ?_, ?_, ?_, rfl, ?_⟩
  · rw [g_nif_binary_20 bld env h x hx]; rfl
  · rw [g_nif_binary_20 bld env h x hx]; rfl
  · rw [g_nif_binary_20 bld env h x hx]; rfl
  · rw [g_nif_binary_20 bld env h x hx]; rfl
  · rw [g_nif_binary_20 bld env h x hx]; rfl
  · intro env2 y hy
    rw [g_nif_binary_20 bld env2 _ y hy]

set_option maxRecDepth 100000 in
/-- Witness of C5: the first call on the standard state with the octets
`00 01 .. 13` leaves a state other than the standard one, and the second call
continues from it. -/
theorem g_nif_state_update_witness :
    seq20.length = 20
    ∧ (g_nif modernBuild okCall State.init (NifTerm.binary seq20)).2.h0
        = (State.init.h0 + (rounds (schedule seq20) (loadRegs State.init)).a) % 4294967296
    ∧ (g_nif modernBuild okCall State.init (NifTerm.binary seq20)).2
        = ⟨701736845, 3550146484, 1914210390, 2017258027, 1438743432⟩
    ∧ (g_nif modernBuild okCall
          (g_nif modernBuild okCall State.init (NifTerm.binary seq20)).2 (NifTerm.binary seq20)).2
        = ⟨1523063536, 513428749, 600982863, 3799991499, 1293486181⟩ :=
  ⟨by decide,
   (g_nif_state_update modernBuild okCall State.init seq20 (by decide)).1,
   by decide, by decide⟩

/-- C6: the binary returned by a successful call is the big-endian encoding of
the updated state: octet `4k+j` is `(h'[k] >> (24 - 8j)) mod 256`, and the four
octets of word `k` read big-endian give `h'[k]` back. -/
theorem g_nif_output_encodes_new_state (bld : Build) (env : Call) (h : State) (x : List Byte)
    (hx : x.length = 20) (hal : env.alloc_ok = true) :
    ∃ out, (g_nif bld env h (NifTerm.binary x)).1 = NifTerm.binary out
      ∧ out.length = 20
      ∧ (∀ k j, k < 5 → j < 4 →
          (out.getD (4*k+j) 0).val
            = ((g_nif bld env h (NifTerm.binary x)).2.get k >>> (24 - 8*j)) % 256)
      ∧ (∀ k, k < 5 →
          (out.getD (4*k) 0).val * 16777216 + (out.getD (4*k+1) 0).val * 65536
            + (out.getD (4*k+2) 0).val * 256 + (out.getD (4*k+3) 0).val
            = (g_nif bld env h (NifTerm.binary x)).2.get k) := by
  rw [g_nif_binary_20 bld env h x hx]
  simp only [hal, if_true]
  generalize hr : rounds (schedule x) (loadRegs h) = r
  have bytes : ∀ k j, k < 5 → j < 4 →
      (((List.range 20).map (fillRes (fun _ => 0) (updateH h r))).getD (4*k+j) 0).val
        = ((updateH h r).get k >>> (24 - 8*j)) % 256 := by
    intro k j hk hj
    rw [getD_map_range _ 20 (4*k+j) 0 (by omega)]
    obtain ⟨p0, p1, p2, p3⟩ := fillRes_spec (fun _ => 0) (updateH h r) k hk
    have e4 : 4 * k = k * 4 := Nat.mul_comm 4 k
    interval_cases j
    · rw [e4, Nat.add_zero, p0, toByte_val]; rfl
    · rw [e4, p1, toByte_val, and_0xff]; simp [shr32]
    · rw [e4, p2, toByte_val, and_0xff]; simp [shr32]
    · rw [e4, p3, toByte_val, and_0xff]; simp
  refine ⟨(List.range 20).map (fillRes (fun _ => 0) (updateH h r)), rfl, by simp, bytes, ?_⟩
  intro k hk
  have b0 := bytes k 0 hk (by decide)
  have b1 := bytes k 1 hk (by decide)
  have b2 := bytes k 2 hk (by decide)
  have b3 := bytes k 3 hk (by decide)
  have hlt := updateH_get_lt h r k
  simp only [Nat.add_zero, Nat.mul_zero, Nat.mul_one, Nat.sub_zero, Nat.shiftRight_eq_div_pow]
    at b0 b1 b2 b3
  rw [b0, b1, b2, b3]
  generalize (updateH h r).get k = v at *
  norm_num
  omega

set_option maxRecDepth 100000 in
/-- Witness of C6: the call on the standard state with the octets `00 01 .. 13`
returns `29 d3 a7 8d ..`, the big-endian octets of the new `h[0] = 0x29d3a78d`, .. -/
theorem g_nif_output_encodes_new_state_witness :
    seq20.length = 20 ∧ okCall.alloc_ok = true
    ∧ (∃ out, (g_nif modernBuild okCall State.init (NifTerm.binary seq20)).1 = NifTerm.binary out
      ∧ out.length = 20
      ∧ (∀ k j, k < 5 → j < 4 →
          (out.getD (4*k+j) 0).val
            = ((g_nif modernBuild okCall State.init (NifTerm.binary seq20)).2.get k
                >>> (24 - 8*j)) % 256)
      ∧ (∀ k, k < 5 →
          (out.getD (4*k) 0).val * 16777216 + (out.getD (4*k+1) 0).val * 65536
            + (out.getD (4*k+2) 0).val * 256 + (out.getD (4*k+3) 0).val
            = (g_nif modernBuild okCall State.init (NifTerm.binary seq20)).2.get k))
    ∧ (g_nif modernBuild okCall State.init (NifTerm.binary seq20))
        = (NifTerm.binary [41, 211, 167, 141, 211, 154, 239, 180, 114, 24, 136, 86, 120, 60,
            234, 43, 85, 193, 123, 136],
           ⟨0x29d3a78d, 0xd39aefb4, 0x72188856, 0x783cea2b, 0x55c17b88⟩) :=
  ⟨by decide, rfl,
   g_nif_output_encodes_new_state modernBuild okCall State.init seq20 (by decide) rfl,
   by decide⟩

/-- C8: the returned term and the new state are determined by the prior state,
the argument and the outcome of the allocation: two calls that agree on these
agree on both, whatever the contents of the uninitialised arrays and of the
fresh buffer. -/
theorem g_nif_deterministic (bld : Build) (env1 env2 : Call) (h : State) (arg : NifTerm)
    (hal : env1.alloc_ok = env2.alloc_ok) :
    g_nif bld env1 h arg = g_nif bld env2 h arg := by
  cases harg : enif_inspect_binary arg with
  | none => rw [g_nif_not_binary bld env1 h arg harg, g_nif_not_binary bld env2 h arg harg]
  | some x =>
    have e : arg = NifTerm.binary x := by
      cases arg <;> simp [enif_inspect_binary] at harg
      rw [harg]
    subst e
    by_cases hx : x.length = 20
    · rw [g_nif_binary_20 bld env1 h x hx, g_nif_binary_20 bld env2 h x hx, hal]
    · rw [g_nif_wrong_size bld env1 h x hx, g_nif_wrong_size bld env2 h x hx]

/-- Witness of C8: two runs from the standard constants with the octets
`00 01 .. 13`, the arrays and the buffer holding different garbage. -/
theorem g_nif_deterministic_witness :
    okCall.alloc_ok = (Call.mk true (fun i => i + 7) (fun i => 3 * i) (fun _ => 255)).alloc_ok
    ∧ g_nif modernBuild okCall State.init (NifTerm.binary seq20)
        = g_nif modernBuild (Call.mk true (fun i => i + 7) (fun i => 3 * i) (fun _ => 255))
            State.init (NifTerm.binary seq20) :=
  ⟨rfl, g_nif_deterministic modernBuild okCall
    (Call.mk true (fun i => i + 7) (fun i => 3 * i) (fun _ => 255)) State.init
    (NifTerm.binary seq20) rfl⟩

/-- C9: for a 20-octet input the block built by lines 50-58 is the five
big-endian words of the input, `0x80000000`, nine zero words and `0x000000a0`,
and lines 59-61 leave it in `w[0..15]`. -/
theorem message_block (m0 w0 : Nat → Nat) (x : List Byte) (hx : x.length = 20) :
    (∀ i, i < 5 → 4*i+3 < x.length ∧
        buildM m0 x i = (x.getD (4*i) 0).val * 2^24 + (x.getD (4*i+1) 0).val * 2^16
          + (x.getD (4*i+2) 0).val * 2^8 + (x.getD (4*i+3) 0).val
        ∧ buildM m0 x i < 2^32)
    ∧ buildM m0 x 5 = 0x80000000
    ∧ (∀ i, 6 ≤ i → i ≤ 14 → buildM m0 x i = 0)
    ∧ buildM m0 x 15 = 0x000000a0
    ∧ (∀ i, i < 16 → buildW w0 (buildM m0 x) i = buildM m0 x i) := by
  refine ⟨?_, ?_, ?_, ?_, ?_⟩
  · intro i hi
    have e4 : i * 4 = 4 * i := Nat.mul_comm i 4
    have h0 := (x.getD (4*i) 0).isLt
    have h1 := (x.getD (4*i+1) 0).isLt
    have h2 := (x.getD (4*i+2) 0).isLt
    have h3 := (x.getD (4*i+3) 0).isLt
    rw [buildM_spec m0 x i (by omega), if_pos hi, decodeWord_eq, e4]
    norm_num
    omega
  · rw [buildM_spec m0 x 5 (by decide)]; rfl
  · intro i h6 h14
    rw [buildM_spec m0 x i (by omega), if_neg (by omega), if_neg (by omega), if_pos (by omega)]
  · rw [buildM_spec m0 x 15 (by decide)]; rfl
  · intro i hi
    exact buildW_low w0 (buildM m0 x) i hi

/-- Witness of C9 at the octets `00 01 .. 13`: the first word is `0x00010203`. -/
theorem message_block_witness :
    seq20.length = 20
    ∧ buildM (fun i => i + 7) seq20 0 = 0x00010203
    ∧ buildM (fun i => i + 7) seq20 5 = 0x80000000
    ∧ buildM (fun i => i + 7) seq20 15 = 0x000000a0 :=
  ⟨by decide,
   by
    have hw := ((message_block (fun i => i + 7) (fun _ => 0) seq20 (by decide)).1 0
      (by decide)).2.1
    rw [hw]; decide,
   (message_block (fun i => i + 7) (fun _ => 0) seq20 (by decide)).2.1,
   (message_block (fun i => i + 7) (fun _ => 0) seq20 (by decide)).2.2.2.1⟩

/-- C10: the word the code stores in `w[16]` for the input `00 01 .. 13` is
`0x080b0e0f`, whereas the rotation by one of `w[13] ^ w[8] ^ w[2] ^ w[0]` is
`0x10101010`: line 63 does not compute the rotation. -/
theorem schedule_word_is_not_rotation :
    schedule seq20 16
      = CLS_1_xor (schedule seq20 13) (schedule seq20 8) (schedule seq20 2) (schedule seq20 0)
    ∧ schedule seq20 16 = 0x080b0e0f
    ∧ ref_rotl 1 (schedule seq20 13 ^^^ schedule seq20 8 ^^^ schedule seq20 2 ^^^ schedule seq20 0)
        = 0x10101010
    ∧ CLS_1_xor 0 0 1 0 = 1 ∧ ref_rotl 1 (0 ^^^ 0 ^^^ 1 ^^^ 0) = 2 := by
  decide

set_option maxRecDepth 100000 in
/-- C11: the code applies the round function to `(a, b, c)`, not to `(b, c, d)`.
In round 0 of a call with twenty zero octets on the standard state the code
stores `temp = 1459207092`, the claimed formula gives `2679412915` (and
`4021590195` with the additive constant the code really uses); in round 20,
where the constants agree, the code stores `3093653668` against `3418146054`.
The other four registers are as claimed. -/
theorem round_function_on_wrong_registers :
    round1 (schedule zeros20 0) (loadRegs State.init)
      = ⟨1459207092, 1732584193, 2079550178, 2562383102, 271733878⟩
    ∧ ref_round ((List.range 80).map (schedule zeros20)) (loadRegs State.init) 0
      = ⟨2679412915, 1732584193, 2079550178, 2562383102, 271733878⟩
    ∧ (ref_rotl 5 0x67452301 + ref_F 0 0xefcdab89 0x98badcfe 0x10325476 + 0xc3d2e1f0
        + schedule zeros20 0 + 0xAA827999) % 4294967296 = 4021590195
    ∧ F1 0x67452301 0xefcdab89 0x98badcfe = 0xffffffff
    ∧ ref_F 0 0xefcdab89 0x98badcfe 0x10325476 = 0x98badcfe
    ∧ forLoop 0 20 (fun i r => round1 (schedule zeros20 i) r) (loadRegs State.init)
      = ⟨2700938239, 1598843037, 1318708271, 3584716573, 2025944514⟩
    ∧ round2 (schedule zeros20 20) ⟨2700938239, 1598843037, 1318708271, 3584716573, 2025944514⟩
      = ⟨3093653668, 2700938239, 1473452583, 1318708271, 3584716573⟩
    ∧ ref_round ((List.range 80).map (schedule zeros20))
        ⟨2700938239, 1598843037, 1318708271, 3584716573, 2025944514⟩ 20
      = ⟨3418146054, 2700938239, 1473452583, 1318708271, 3584716573⟩ := by
  refine ⟨?_, ?_, ?_, ?_, ?_, ?_, ?_, ?_⟩ <;> decide

/-- C12: the constant in effect in rounds 0-19 is `0xAA827999`, the low 32 bits
of the literal `0x5aA827999`, and never `0x5A827999`: for all registers and
every schedule word the value stored in `temp` at line 71 is the sum of the
other four terms plus `0xAA827999` modulo `2^32`, and differs from that sum
plus `0x5A827999` modulo `2^32`; in round 0 of a call with twenty zero octets
on the standard state it is `1459207092`, not `117029812`. -/
theorem round1_constant_is_not_standard (wi : Nat) (r : Regs) :
    (round1 wi r).a
      = (CLS 5 r.a + F1 r.a r.b r.c + r.e + wi + 0xAA827999) % 4294967296
    ∧ (round1 wi r).a
      ≠ (CLS 5 r.a + F1 r.a r.b r.c + r.e + wi + 0x5A827999) % 4294967296
    ∧ (round1 (schedule zeros20 0) (loadRegs State.init)).a = 1459207092
    ∧ (CLS 5 0x67452301 + F1 0x67452301 0xefcdab89 0x98badcfe + 0xc3d2e1f0
        + schedule zeros20 0 + 0x5A827999) % 4294967296 = 117029812 := by
  refine ⟨?_, ?_, by decide, by decide⟩
  · simp only [round1, add32]
    generalize CLS 5 r.a = p
    generalize F1 r.a r.b r.c = q
    omega
  · simp only [round1, add32]
    generalize CLS 5 r.a = p
    generalize F1 r.a r.b r.c = q
    omega

/-- C13: the value stored in `temp` in the second, third and fourth loop is
the sum of the other four terms plus `0x6ED9EBA1`, `0x8F1BBCDC`, `0xCA62C1D6`
modulo `2^32`; the 80 rounds are the four loops in sequence, and the last three
each make twenty passes over `w[20..39]`, `w[40..59]`, `w[60..79]` in order. -/
theorem last_three_phases (w : Nat → Nat) (wi : Nat) (r : Regs) :
    (round2 wi r).a = (CLS 5 r.a + F2 r.a r.b r.c + r.e + wi + 0x6ED9EBA1) % 4294967296
    ∧ (round3 wi r).a = (CLS 5 r.a + F3 r.a r.b r.c + r.e + wi + 0x8F1BBCDC) % 4294967296
    ∧ (round4 wi r).a = (CLS 5 r.a + F2 r.a r.b r.c + r.e + wi + 0xCA62C1D6) % 4294967296
    ∧ rounds w r
        = forLoop 60 80 (fun i r => round4 (w i) r)
            (forLoop 40 60 (fun i r => round3 (w i) r)
              (forLoop 20 40 (fun i r => round2 (w i) r)
                (forLoop 0 20 (fun i r => round1 (w i) r) r)))
    ∧ forLoop 20 40 (fun i r => round2 (w i) r) r
        = ((List.range 20).map (fun k => w (20 + k))).foldl (fun r wi => round2 wi r) r
    ∧ forLoop 40 60 (fun i r => round3 (w i) r) r
        = ((List.range 20).map (fun k => w (40 + k))).foldl (fun r wi => round3 wi r) r
    ∧ forLoop 60 80 (fun i r => round4 (w i) r) r
        = ((List.range 20).map (fun k => w (60 + k))).foldl (fun r wi => round4 wi r) r := by
  refine ⟨?_, ?_, ?_, rfl, ?_, ?_, ?_⟩
  · simp only [round2, add32]
    generalize CLS 5 r.a = p
    generalize F2 r.a r.b r.c = q
    omega
  · simp only [round3, add32]
    generalize CLS 5 r.a = p
    generalize F3 r.a r.b r.c = q
    omega
  · simp only [round4, add32]
    generalize CLS 5 r.a = p
    generalize F2 r.a r.b r.c = q
    omega
  · simp only [forLoop, List.foldl_map, List.range'_eq_map_range]
  · simp only [forLoop, List.foldl_map, List.range'_eq_map_range]
  · simp only [forLoop, List.foldl_map, List.range'_eq_map_range]

/-- C14: a call with a binary of a length other than 20 leaves the state as it
was, so any following call behaves as if the failed call had not happened. -/
theorem g_nif_wrong_length_keeps_state (bld : Build) (env env2 : Call) (h : State)
    (x : List Byte) (arg : NifTerm) (hx : x.length ≠ 20) :
    (g_nif bld env h (NifTerm.binary x)).2 = h
    ∧ g_nif bld env2 (g_nif bld env h (NifTerm.binary x)).2 arg = g_nif bld env2 h arg := by
  rw [g_nif_wrong_size bld env h x hx]
  exact ⟨rfl, rfl⟩

set_option maxRecDepth 100000 in
/-- Witness of C14: a call with 19 octets on the standard state, followed by a
call with the octets `00 01 .. 13`. -/
theorem g_nif_wrong_length_keeps_state_witness :
    (seq20.take 19).length ≠ 20
    ∧ (g_nif modernBuild okCall State.init (NifTerm.binary (seq20.take 19))).2 = State.init
    ∧ g_nif modernBuild okCall
          (g_nif modernBuild okCall State.init (NifTerm.binary (seq20.take 19))).2
          (NifTerm.binary seq20)
        = g_nif modernBuild okCall State.init (NifTerm.binary seq20)
    ∧ (g_nif modernBuild okCall
          (g_nif modernBuild okCall State.init (NifTerm.binary (seq20.take 19))).2
          (NifTerm.binary seq20)).1
        = NifTerm.binary [41, 211, 167, 141, 211, 154, 239, 180, 114, 24, 136, 86, 120, 60,
            234, 43, 85, 193, 123, 136] :=
  ⟨by decide,
   (g_nif_wrong_length_keeps_state modernBuild okCall okCall State.init (seq20.take 19)
      (NifTerm.binary seq20) (by decide)).1,
   (g_nif_wrong_length_keeps_state modernBuild okCall okCall State.init (seq20.take 19)
      (NifTerm.binary seq20) (by decide)).2,
   by decide⟩

/-! ## The round step is a permutation of the 32-bit register files -/

theorem CLS_30_eq (b : Nat) (hb : b < 4294967296) :
    CLS 30 b = 1073741824 * (b % 4) + b / 4 := by
  unfold CLS shl32 shr32
  rw [Nat.shiftLeft_eq, Nat.shiftRight_eq_div_pow]
  have e1 : b * 2 ^ 30 % 4294967296 = 2 ^ 30 * (b % 4) := by norm_num; omega
  have e2 : b / 2 ^ (32 - 30) < 2 ^ 30 := by norm_num; omega
  rw [e1, ← Nat.mul_add_lt_is_or e2]
  norm_num

theorem CLS_2_eq (c : Nat) (hc : c < 4294967296) :
    CLS 2 c = 4 * (c % 1073741824) + c / 1073741824 := by
  unfold CLS shl32 shr32
  rw [Nat.shiftLeft_eq, Nat.shiftRight_eq_div_pow]
  have e1 : c * 2 ^ 2 % 4294967296 = 2 ^ 2 * (c % 1073741824) := by norm_num; omega
  have e2 : c / 2 ^ (32 - 2) < 2 ^ 2 := by norm_num; omega
  rw [e1, ← Nat.mul_add_lt_is_or e2]
  norm_num

theorem CLS_30_lt (b : Nat) (hb : b < 4294967296) : CLS 30 b < 4294967296 := by
  rw [CLS_30_eq b hb]; omega

theorem CLS_2_lt (c : Nat) (hc : c < 4294967296) : CLS 2 c < 4294967296 := by
  rw [CLS_2_eq c hc]; omega

theorem CLS_2_CLS_30 (b : Nat) (hb : b < 4294967296) : CLS 2 (CLS 30 b) = b := by
  rw [CLS_2_eq _ (CLS_30_lt b hb), CLS_30_eq b hb]; omega

theorem CLS_30_CLS_2 (c : Nat) (hc : c < 4294967296) : CLS 30 (CLS 2 c) = c := by
  rw [CLS_30_eq _ (CLS_2_lt c hc), CLS_2_eq c hc]; omega

/-- Every step of the shape of lines 71-76 permutes the 32-bit register files. -/
theorem step_bijOn (f : Regs → Regs) (G : Nat → Nat → Nat → Nat) (wi K : Nat)
    (hf : ∀ r, f r = ⟨(CLS 5 r.a + G r.a r.b r.c + r.e + wi + K) % 4294967296,
      r.a, CLS 30 r.b, r.c, r.d⟩) :
    Set.BijOn f {r | r.wf} {r | r.wf} := by
  refine ⟨?_, ?_, ?_⟩
  · intro r hr
    obtain ⟨ha, hb, hc, hd, _⟩ := hr
    show (f r).wf
    rw [hf r]
    exact ⟨Nat.mod_lt _ (by decide), ha, CLS_30_lt _ hb, hc, hd⟩
  · intro r hr s hs hrs
    obtain ⟨ra, rb, rc, rd, re⟩ := r
    obtain ⟨sa, sb, sc, sd, se⟩ := s
    obtain ⟨_, hrb, _, _, hre⟩ := hr
    obtain ⟨_, hsb, _, _, hse⟩ := hs
    rw [hf, hf] at hrs
    simp only [Regs.mk.injEq] at hrs
    obtain ⟨e1, e2, e3, e4, e5⟩ := hrs
    simp only at hrb hsb hre hse
    have eb : rb = sb := by
      rw [← CLS_2_CLS_30 rb hrb, ← CLS_2_CLS_30 sb hsb, e3]
    subst e2 eb e4 e5
    have ee : re = se := by
      generalize CLS 5 ra = p at e1
      generalize G ra rb rc = q at e1
      omega
    rw [ee]
  · intro r' hr'
    obtain ⟨a', b', c', d', e'⟩ := r'
    obtain ⟨ha', hb', hc', hd', he'⟩ := hr'
    simp only at ha' hb' hc' hd' he'
    refine ⟨⟨b', CLS 2 c', d', e',
      (a' + 4294967296 - (CLS 5 b' + G b' (CLS 2 c') d' + wi + K) % 4294967296)
        % 4294967296⟩, ⟨hb', CLS_2_lt _ hc', hd', he', Nat.mod_lt _ (by decide)⟩, ?_⟩
    rw [hf]
    simp only [Regs.mk.injEq, CLS_30_CLS_2 c' hc', and_true, true_and]
    generalize CLS 5 b' = p
    generalize G b' (CLS 2 c') d' = q
    omega

theorem round1_shape (wi : Nat) (r : Regs) :
    round1 wi r = ⟨(CLS 5 r.a + F1 r.a r.b r.c + r.e + wi + 0xAA827999) % 4294967296,
      r.a, CLS 30 r.b, r.c, r.d⟩ := by
  simp only [round1, add32, Regs.mk.injEq, and_true]
  generalize CLS 5 r.a = p
  generalize F1 r.a r.b r.c = q
  omega

theorem round2_shape (wi : Nat) (r : Regs) :
    round2 wi r = ⟨(CLS 5 r.a + F2 r.a r.b r.c + r.e + wi + 0x6ed9eba1) % 4294967296,
      r.a, CLS 30 r.b, r.c, r.d⟩ := by
  simp only [round2, add32, Regs.mk.injEq, and_true]
  generalize CLS 5 r.a = p
  generalize F2 r.a r.b r.c = q
  omega

theorem round3_shape (wi : Nat) (r : Regs) :
    round3 wi r = ⟨(CLS 5 r.a + F3 r.a r.b r.c + r.e + wi + 0x8f1bbcdc) % 4294967296,
      r.a, CLS 30 r.b, r.c, r.d⟩ := by
  simp only [round3, add32, Regs.mk.injEq, and_true]
  generalize CLS 5 r.a = p
  generalize F3 r.a r.b r.c = q
  omega

theorem round4_shape (wi : Nat) (r : Regs) :
    round4 wi r = ⟨(CLS 5 r.a + F2 r.a r.b r.c + r.e + wi + 0xca62c1d6) % 4294967296,
      r.a, CLS 30 r.b, r.c, r.d⟩ := by
  simp only [round4, add32, Regs.mk.injEq, and_true]
  generalize CLS 5 r.a = p
  generalize F2 r.a r.b r.c = q
  omega

/-- A loop whose body maps a set into itself injectively does so too. -/
theorem forLoop_injOn {σ : Type} (W : Set σ) (body : Nat → σ → σ) (lo hi : Nat) (hle : lo ≤ hi)
    (hmaps : ∀ i, Set.MapsTo (body i) W W) (hinj : ∀ i, Set.InjOn (body i) W) :
    Set.MapsTo (forLoop lo hi body) W W ∧ Set.InjOn (forLoop lo hi body) W := by
  induction hi, hle using Nat.le_induction with
  | base =>
    refine ⟨fun s hs => ?_, fun s _ t _ hst => ?_⟩
    · rw [forLoop_self]; exact hs
    · rw [forLoop_self, forLoop_self] at hst; exact hst
  | succ n hn ih =>
    obtain ⟨im, ii⟩ := ih
    refine ⟨fun s hs => ?_, fun s hs t ht hst => ?_⟩
    · rw [forLoop_succ lo n body s hn]; exact hmaps n (im hs)
    · rw [forLoop_succ lo n body s hn, forLoop_succ lo n body t hn] at hst
      exact ii hs ht (hinj n (im hs) (im ht) hst)

theorem rounds_mapsTo_injOn (w : Nat → Nat) :
    Set.MapsTo (rounds w) {r | r.wf} {r | r.wf} ∧ Set.InjOn (rounds w) {r | r.wf} := by
  have b1 := fun i => step_bijOn (round1 (w i)) F1 (w i) 0xAA827999 (round1_shape (w i))
  have b2 := fun i => step_bijOn (round2 (w i)) F2 (w i) 0x6ed9eba1 (round2_shape (w i))
  have b3 := fun i => step_bijOn (round3 (w i)) F3 (w i) 0x8f1bbcdc (round3_shape (w i))
  have b4 := fun i => step_bijOn (round4 (w i)) F2 (w i) 0xca62c1d6 (round4_shape (w i))
  obtain ⟨m1, i1⟩ := forLoop_injOn {r : Regs | r.wf} (fun i r => round1 (w i) r) 0 20
    (by decide) (fun i => (b1 i).1) (fun i => (b1 i).2.1)
  obtain ⟨m2, i2⟩ := forLoop_injOn {r : Regs | r.wf} (fun i r => round2 (w i) r) 20 40
    (by decide) (fun i => (b2 i).1) (fun i => (b2 i).2.1)
  obtain ⟨m3, i3⟩ := forLoop_injOn {r : Regs | r.wf} (fun i r => round3 (w i) r) 40 60
    (by decide) (fun i => (b3 i).1) (fun i => (b3 i).2.1)
  obtain ⟨m4, i4⟩ := forLoop_injOn {r : Regs | r.wf} (fun i r => round4 (w i) r) 60 80
    (by decide) (fun i => (b4 i).1) (fun i => (b4 i).2.1)
  refine ⟨fun r hr => ?_, fun r hr s hs hrs => ?_⟩
  · exact m4 (m3 (m2 (m1 hr)))
  · exact i1 hr hs (i2 (m1 hr) (m1 hs) (i3 (m2 (m1 hr)) (m2 (m1 hs))
      (i4 (m3 (m2 (m1 hr))) (m3 (m2 (m1 hs))) hrs)))

/-! ## The returned binary determines the state -/

theorem updateH_wf (h : State) (r : Regs) : (updateH h r).wf := by
  unfold updateH State.wf add32
  exact ⟨Nat.mod_lt _ (by decide), Nat.mod_lt _ (by decide), Nat.mod_lt _ (by decide),
    Nat.mod_lt _ (by decide), Nat.mod_lt _ (by decide)⟩

theorem loadRegs_wf (h : State) (hw : h.wf) : (loadRegs h).wf := hw

theorem State.get_lt (h : State) (hw : h.wf) (k : Nat) : h.get k < 4294967296 := by
  obtain ⟨h0, h1, h2, h3, h4⟩ := hw
  unfold State.get
  split <;> assumption

/-- The four octets lines 111-116 store for `h[k]`, read big-endian, are `h[k]`. -/
theorem fillRes_word (r0 : Nat → Byte) (h : State) (hw : h.wf) (k : Nat) (hk : k < 5) :
    (fillRes r0 h (k*4)).val * 16777216 + (fillRes r0 h (k*4+1)).val * 65536
      + (fillRes r0 h (k*4+2)).val * 256 + (fillRes r0 h (k*4+3)).val = h.get k := by
  obtain ⟨p0, p1, p2, p3⟩ := fillRes_spec r0 h k hk
  have hlt := State.get_lt h hw k
  rw [p0, p1, p2, p3, toByte_val, toByte_val, toByte_val, toByte_val, and_0xff, and_0xff,
    and_0xff]
  simp only [shr32, Nat.shiftRight_eq_div_pow]
  generalize h.get k = v at *
  norm_num
  omega

theorem State.ext_get (s t : State) (hst : ∀ k, k < 5 → s.get k = t.get k) : s = t := by
  obtain ⟨s0, s1, s2, s3, s4⟩ := s
  obtain ⟨t0, t1, t2, t3, t4⟩ := t
  have e0 := hst 0 (by decide)
  have e1 := hst 1 (by decide)
  have e2 := hst 2 (by decide)
  have e3 := hst 3 (by decide)
  have e4 := hst 4 (by decide)
  simp only [State.get] at e0 e1 e2 e3 e4
  rw [e0, e1, e2, e3, e4]

/-- Two 32-bit states with the same returned binary are the same state. -/
theorem enif_make_binary_inj (r0 r1 : Nat → Byte) (s t : State) (hs : s.wf) (ht : t.wf)
    (heq : enif_make_binary 20 (fillRes r0 s) = enif_make_binary 20 (fillRes r1 t)) :
    s = t := by
  unfold enif_make_binary at heq
  have hl : (List.range 20).map (fillRes r0 s) = (List.range 20).map (fillRes r1 t) :=
    NifTerm.binary.inj heq
  have hb : ∀ j, j < 20 → fillRes r0 s j = fillRes r1 t j := by
    intro j hj
    have e : ((List.range 20).map (fillRes r0 s)).getD j 0
        = ((List.range 20).map (fillRes r1 t)).getD j 0 := by rw [hl]
    rw [getD_map_range _ 20 j 0 hj, getD_map_range _ 20 j 0 hj] at e
    exact e
  apply State.ext_get
  intro k hk
  rw [← fillRes_word r0 s hs k hk, ← fillRes_word r1 t ht k hk,
    hb (k*4) (by omega), hb (k*4+1) (by omega), hb (k*4+2) (by omega), hb (k*4+3) (by omega)]

theorem updateH_eq_self_iff (h : State) (r : Regs) (hh : h.wf) (hr : r.wf) :
    updateH h r = h ↔ r = ⟨0, 0, 0, 0, 0⟩ := by
  obtain ⟨h0, h1, h2, h3, h4⟩ := h
  obtain ⟨a, b, c, d, e⟩ := r
  obtain ⟨p0, p1, p2, p3, p4⟩ := hh
  obtain ⟨q0, q1, q2, q3, q4⟩ := hr
  simp only at p0 p1 p2 p3 p4 q0 q1 q2 q3 q4
  simp only [updateH, add32, State.mk.injEq, Regs.mk.injEq]
  omega

set_option maxRecDepth 100000 in
/-- C15, as stated, fails: from the state `fixedState` a call with twenty zero
octets whose allocation fails leaves the state as it was, because the 80
rounds end with all five registers zero; the retry returns the very binary
the failed call would have returned. -/
theorem retry_returns_same_output :
    rounds (schedule zeros20) (loadRegs fixedState) = ⟨0, 0, 0, 0, 0⟩
    ∧ g_nif modernBuild failCall fixedState (NifTerm.binary zeros20)
        = (NifTerm.raised (NifTerm.atom "enomem"), fixedState)
    ∧ (g_nif modernBuild okCall
          (g_nif modernBuild failCall fixedState (NifTerm.binary zeros20)).2
          (NifTerm.binary zeros20)).1
        = (g_nif modernBuild okCall fixedState (NifTerm.binary zeros20)).1
    ∧ (g_nif modernBuild okCall fixedState (NifTerm.binary zeros20)).1
        = NifTerm.binary [63, 26, 219, 112, 51, 42, 9, 208, 119, 24, 66, 96, 113, 41, 245, 152,
            111, 38, 202, 196] := by
  refine ⟨?_, ?_, ?_, ?_⟩ <;> decide

/-- C15, amended: a call with twenty octets whose allocation fails leaves the
state a successful call with the same input leaves, `h[k] + r[k]` modulo
`2^32`; the retry returns another binary than the failed call would have
returned exactly when the registers after the retry's 80 rounds are not all
zero. -/
theorem g_nif_alloc_failure_updates_state (bld : Build) (envf envok envr : Call) (h : State)
    (x : List Byte) (hx : x.length = 20) (hf : envf.alloc_ok = false)
    (hok : envok.alloc_ok = true) (hr : envr.alloc_ok = true) :
    (g_nif bld envf h (NifTerm.binary x)).1 = enif_raise_exception bld (NifTerm.atom "enomem")
    ∧ (g_nif bld envf h (NifTerm.binary x)).2 = (g_nif bld envok h (NifTerm.binary x)).2
    ∧ (g_nif bld envf h (NifTerm.binary x)).2
        = ⟨(h.h0 + (rounds (schedule x) (loadRegs h)).a) % 4294967296,
           (h.h1 + (rounds (schedule x) (loadRegs h)).b) % 4294967296,
           (h.h2 + (rounds (schedule x) (loadRegs h)).c) % 4294967296,
           (h.h3 + (rounds (schedule x) (loadRegs h)).d) % 4294967296,
           (h.h4 + (rounds (schedule x) (loadRegs h)).e) % 4294967296⟩
    ∧ ((g_nif bld envr (g_nif bld envf h (NifTerm.binary x)).2 (NifTerm.binary x)).1
          ≠ (g_nif bld envok h (NifTerm.binary x)).1
        ↔ rounds (schedule x) (loadRegs (g_nif bld envf h (NifTerm.binary x)).2)
            ≠ ⟨0, 0, 0, 0, 0⟩) := by
  rw [g_nif_binary_20 bld envf h x hx, g_nif_binary_20 bld envok h x hx,
    g_nif_binary_20 bld envr _ x hx]
  refine ⟨by simp [hf], rfl, rfl, ?_⟩
  simp only [hok, hr, if_true]
  generalize hh' : updateH h (rounds (schedule x) (loadRegs h)) = h'
  have hw' : h'.wf := by rw [← hh']; exact updateH_wf _ _
  have hrw : (rounds (schedule x) (loadRegs h')).wf :=
    (rounds_mapsTo_injOn (schedule x)).1 (loadRegs_wf h' hw')
  rw [not_iff_not]
  constructor
  · intro heq
    have hst := enif_make_binary_inj _ _ _ _ (updateH_wf _ _) hw' heq
    exact (updateH_eq_self_iff h' _ hw' hrw).mp hst
  · intro hz
    rw [(updateH_eq_self_iff h' _ hw' hrw).mpr hz]

set_option maxRecDepth 100000 in
/-- Witness of C15 (amended): from the standard state with the octets
`00 01 .. 13` the retry's registers are not all zero and the retry returns
`5a c8 1a f0 ..`, not `29 d3 a7 8d ..`. -/
theorem g_nif_alloc_failure_updates_state_witness :
    seq20.length = 20 ∧ failCall.alloc_ok = false ∧ okCall.alloc_ok = true
    ∧ (g_nif modernBuild failCall State.init (NifTerm.binary seq20)).2
        = (g_nif modernBuild okCall State.init (NifTerm.binary seq20)).2
    ∧ rounds (schedule seq20)
          (loadRegs (g_nif modernBuild failCall State.init (NifTerm.binary seq20)).2)
        ≠ ⟨0, 0, 0, 0, 0⟩
    ∧ (g_nif modernBuild okCall
          (g_nif modernBuild failCall State.init (NifTerm.binary seq20)).2
          (NifTerm.binary seq20)).1
        ≠ (g_nif modernBuild okCall State.init (NifTerm.binary seq20)).1 :=
  ⟨by decide, rfl, rfl,
   (g_nif_alloc_failure_updates_state modernBuild failCall okCall okCall State.init seq20
      (by decide) rfl rfl rfl).2.1,
   by decide,
   (g_nif_alloc_failure_updates_state modernBuild failCall okCall okCall State.init seq20
      (by decide) rfl rfl rfl).2.2.2.mpr (by decide)⟩

/-- C18: for every schedule word the step of each of the four loops is a
bijection of the register files of five 32-bit words; so for every input the
80 rounds are injective on them, and distinct 32-bit states give distinct
final registers. -/
theorem round_step_bijective (wi : Nat) (x : List Byte) :
    Set.BijOn (round1 wi) {r | r.wf} {r | r.wf}
    ∧ Set.BijOn (round2 wi) {r | r.wf} {r | r.wf}
    ∧ Set.BijOn (round3 wi) {r | r.wf} {r | r.wf}
    ∧ Set.BijOn (round4 wi) {r | r.wf} {r | r.wf}
    ∧ Set.InjOn (rounds (schedule x)) {r | r.wf}
    ∧ ∀ h1 h2 : State, h1.wf → h2.wf → h1 ≠ h2 →
        rounds (schedule x) (loadRegs h1) ≠ rounds (schedule x) (loadRegs h2) := by
  refine ⟨step_bijOn _ F1 wi 0xAA827999 (round1_shape wi),
    step_bijOn _ F2 wi 0x6ed9eba1 (round2_shape wi),
    step_bijOn _ F3 wi 0x8f1bbcdc (round3_shape wi),
    step_bijOn _ F2 wi 0xca62c1d6 (round4_shape wi),
    (rounds_mapsTo_injOn (schedule x)).2, ?_⟩
  intro h1 h2 w1 w2 hne heq
  apply hne
  have e := (rounds_mapsTo_injOn (schedule x)).2 (loadRegs_wf h1 w1) (loadRegs_wf h2 w2) heq
  obtain ⟨a0, a1, a2, a3, a4⟩ := h1
  obtain ⟨b0, b1, b2, b3, b4⟩ := h2
  simp only [loadRegs, Regs.mk.injEq] at e
  obtain ⟨e0, e1, e2, e3, e4⟩ := e
  rw [e0, e1, e2, e3, e4]

set_option maxRecDepth 100000 in
/-- Witness of C18: the standard state and `fixedState` under the rounds of
twenty zero octets. -/
theorem round_step_bijective_witness :
    State.init.wf ∧ fixedState.wf ∧ State.init ≠ fixedState
    ∧ rounds (schedule zeros20) (loadRegs State.init)
        ≠ rounds (schedule zeros20) (loadRegs fixedState)
    ∧ rounds (schedule zeros20) (loadRegs fixedState) = ⟨0, 0, 0, 0, 0⟩ :=
  ⟨by unfold State.wf; decide, by unfold State.wf; decide, by decide,
   (round_step_bijective 0 zeros20).2.2.2.2.2 State.init fixedState
      (by unfold State.wf; decide) (by unfold State.wf; decide) (by decide),
   by decide⟩

/-! ## The block is the FIPS 180 padding of a 20-octet message -/

theorem fips_pad_20 (x : List Byte) (hx : x.length = 20) :
    fips_pad x = x ++ ([0x80] ++ List.replicate 35 0 ++ be64 160) := by
  unfold fips_pad
  rw [hx]
  simp only [List.append_assoc]

theorem be_word_low (x t : List Byte) (hx : x.length = 20) (i : Nat) (hi : i < 5) :
    be_word (x ++ t) i = be_word x i := by
  unfold be_word
  rw [List.getD_append x t 0 (4*i) (by omega), List.getD_append x t 0 (4*i+1) (by omega),
    List.getD_append x t 0 (4*i+2) (by omega), List.getD_append x t 0 (4*i+3) (by omega)]

theorem be_word_high (x t : List Byte) (hx : x.length = 20) (i : Nat) (hi : 5 ≤ i) :
    be_word (x ++ t) i = be_word t (i - 5) := by
  unfold be_word
  rw [List.getD_append_right x t 0 (4*i) (by omega),
    List.getD_append_right x t 0 (4*i+1) (by omega),
    List.getD_append_right x t 0 (4*i+2) (by omega),
    List.getD_append_right x t 0 (4*i+3) (by omega), hx]
  have e0 : 4 * i - 20 = 4 * (i - 5) := by omega
  have e1 : 4 * i + 1 - 20 = 4 * (i - 5) + 1 := by omega
  have e2 : 4 * i + 2 - 20 = 4 * (i - 5) + 2 := by omega
  have e3 : 4 * i + 3 - 20 = 4 * (i - 5) + 3 := by omega
  rw [e0, e1, e2, e3]

/-- C17: for a 20-octet input the FIPS 180 padding is the input, `0x80`, 35
zero octets and the 64-bit big-endian number 160, 64 octets in all, and the
block built by lines 50-58 is its sixteen big-endian words. -/
theorem block_is_fips_padding (m0 : Nat → Nat) (x : List Byte) (hx : x.length = 20) :
    fips_pad x = x ++ [0x80] ++ List.replicate 35 0 ++ be64 160
    ∧ be64 160 = [0, 0, 0, 0, 0, 0, 0, 0xa0]
    ∧ (fips_pad x).length = 64
    ∧ ∀ i, i < 16 → buildM m0 x i = be_word (fips_pad x) i := by
  refine ⟨?_, by decide, ?_, ?_⟩
  · rw [fips_pad_20 x hx]; simp only [List.append_assoc]
  · rw [fips_pad_20 x hx, List.length_append, hx]; rfl
  · intro i hi
    rw [fips_pad_20 x hx, buildM_spec m0 x i hi]
    by_cases h5 : i < 5
    · rw [if_pos h5, be_word_low x _ hx i h5, decodeWord_eq]
      unfold be_word
      have e4 : i * 4 = 4 * i := Nat.mul_comm i 4
      rw [e4]
      norm_num
    · rw [if_neg h5, be_word_high x _ hx i (by omega)]
      interval_cases i <;> decide

/-- Witness of C17 at the octets `00 01 .. 13`. -/
theorem block_is_fips_padding_witness :
    seq20.length = 20
    ∧ fips_pad seq20 = seq20 ++ [0x80] ++ List.replicate 35 0 ++ be64 160
    ∧ (fips_pad seq20).length = 64
    ∧ buildM (fun i => i + 7) seq20 14 = be_word (fips_pad seq20) 14
    ∧ be_word (fips_pad seq20) 15 = 0x000000a0
    ∧ be_word (fips_pad seq20) 5 = 0x80000000
    ∧ be_word (fips_pad seq20) 4 = 0x10111213 :=
  ⟨by decide,
   (block_is_fips_padding (fun i => i + 7) seq20 (by decide)).1,
   (block_is_fips_padding (fun i => i + 7) seq20 (by decide)).2.2.1,
   (block_is_fips_padding (fun i => i + 7) seq20 (by decide)).2.2.2 14 (by decide),
   by decide, by decide, by decide⟩

/-! ## Accesses stay in bounds and the loops end -/

theorem g_nif_trace_20 (fuel : Nat) (alloc_ok : Bool) (x : List Byte) (hx : x.length = 20) :
    g_nif_trace fuel alloc_ok (NifTerm.binary x) = bodyTrace fuel alloc_ok := by
  simp [g_nif_trace, enif_inspect_binary, hx]

theorem eq_some_getD_of_isSome {α : Type} (o : Option α) (d : α) (h : o.isSome = true) :
    o = some (o.getD d) := by
  cases o with
  | none => simp at h
  | some v => rfl

set_option maxRecDepth 100000 in
/-- C16: for a 20-octet input, with 65 tests of the condition allowed to each
loop, the run of `g_nif` ends, every array access of it is inside its array
(`xkey.data` of `xkey.size` octets, `m[16]`, `w[80]`, `h[5]`, `res.data` of 20
octets), every shift amount is in `0..31`, every element of `m` and `w` is
written before it is read, and the loops make 5, 9, 16, 64, 20, 20, 20, 20
passes and, when the buffer is obtained, 5 more. -/
theorem g_nif_accesses_safe (alloc_ok : Bool) (x : List Byte) (hx : x.length = 20) :
    ∃ tr, g_nif_trace 65 alloc_ok (NifTerm.binary x) = some tr
      ∧ tr.all (Event.inBounds x.length) = true
      ∧ writtenBeforeRead [] tr = true
      ∧ tr.count (Event.pass 50) = 5
      ∧ tr.count (Event.pass 55) = 9
      ∧ tr.count (Event.pass 59) = 16
      ∧ tr.count (Event.pass 62) = 64
      ∧ tr.count (Event.pass 70) = 20
      ∧ tr.count (Event.pass 78) = 20
      ∧ tr.count (Event.pass 86) = 20
      ∧ tr.count (Event.pass 94) = 20
      ∧ tr.count (Event.pass 111) = (if alloc_ok = true then 5 else 0) := by
  rw [g_nif_trace_20 65 alloc_ok x hx, hx]
  cases alloc_ok
  · refine ⟨(bodyTrace 65 false).getD [], eq_some_getD_of_isSome _ _ (by decide),
      ?_, ?_, ?_, ?_, ?_, ?_, ?_, ?_, ?_, ?_, ?_⟩ <;> decide
  · refine ⟨(bodyTrace 65 true).getD [], eq_some_getD_of_isSome _ _ (by decide),
      ?_, ?_, ?_, ?_, ?_, ?_, ?_, ?_, ?_, ?_, ?_⟩ <;> decide

set_option maxRecDepth 100000 in
/-- Witness of C16 at the octets `00 01 .. 13`; with only 64 tests allowed the
loop of lines 62-64 would not have ended. -/
theorem g_nif_accesses_safe_witness :
    seq20.length = 20
    ∧ (∃ tr, g_nif_trace 65 true (NifTerm.binary seq20) = some tr
      ∧ tr.all (Event.inBounds seq20.length) = true
      ∧ writtenBeforeRead [] tr = true
      ∧ tr.count (Event.pass 50) = 5
      ∧ tr.count (Event.pass 55) = 9
      ∧ tr.count (Event.pass 59) = 16
      ∧ tr.count (Event.pass 62) = 64
      ∧ tr.count (Event.pass 70) = 20
      ∧ tr.count (Event.pass 78) = 20
      ∧ tr.count (Event.pass 86) = 20
      ∧ tr.count (Event.pass 94) = 20
      ∧ tr.count (Event.pass 111) = (if true = true then 5 else 0))
    ∧ (g_nif_trace 64 true (NifTerm.binary seq20)).isSome = false :=
  ⟨by decide, g_nif_accesses_safe true seq20 (by decide), by decide⟩

end OcsEapAka
